import Mathlib

/-! The value stack of the query builder (`utils/value_stack.go`).

A shallow embedding of `ValueStack` and of the semantic actions the parser
calls on it, followed by the properties of the builder.

Conventions of the embedding.

* The stack is the Go slice `vs.stack`: a list whose LAST element is the top
  (`Push` appends).
* The stack holds non-nil `*Value` pointers.  Two embeddings are given.
  `PtrStack` keeps the pointers: a store of cells and a stack of addresses, so
  that one pointer can stand on the stack several times and a write through it
  shows at each place.  `ValueStack` holds the stack as a list of `ValueRef`:
  the sentinel (the one cell `GroupInit`, told apart by pointer identity in
  `current`) or the content of a node.  `PtrStack.abs` reads the first as the
  second.  The two agree on every stack in which no pointer to a node stands
  twice (`step_simulates`, `runOps_simulation`), and every stack built from the
  start by the public operations other than a direct `Push` is such a stack
  (`runOps_from_start`); statements on `ValueStack` are statements about those
  stacks.  The frame of the builder operations, where a shared pointer makes a
  difference, is stated on `PtrStack`.
* `log.Fatalf` ends the process: an operation that reaches it returns `none`.
* `elastic.Query`, `strconv.Atoi`, `strconv.ParseBool` and `regexp` are not part
  of the sources; they are modelled below by what they compute.
-/

namespace ValueStackModel

/-! ## Library values -/

/-- The dynamically typed value (`interface{}`) handed to a query constructor:
the program passes a `string`, an `int` or a `bool`. -/
inductive Lit where
  | str (s : String)
  | int (i : Int)
  | bool (b : Bool)
  deriving DecidableEq, Repr

/-- Modelled from the spec: the range query of the external query library
(`elastic.RangeQuery`, not in the sources), a bounded range over the field
`name` with an optional lower bound (the library's `from`), an optional upper
bound (its `to`) and the inclusiveness of each. -/
structure RangeQuery where
  name : String
  lower : Option Lit
  upper : Option Lit
  includeLower : Bool
  includeUpper : Bool
  deriving DecidableEq, Repr

/-- The library call `elastic.NewRangeQuery(name)`: no bound yet. -/
def NewRangeQuery (name : String) : RangeQuery :=
  { name := name, lower := none, upper := none, includeLower := true, includeUpper := true }

/-- The library call `rq.Gt(v)`: strict lower bound. -/
def RangeQuery.Gt (q : RangeQuery) (v : Lit) : RangeQuery :=
  { q with lower := some v, includeLower := false }

/-- The library call `rq.Gte(v)`: inclusive lower bound. -/
def RangeQuery.Gte (q : RangeQuery) (v : Lit) : RangeQuery :=
  { q with lower := some v, includeLower := true }

/-- The library call `rq.Lt(v)`: strict upper bound. -/
def RangeQuery.Lt (q : RangeQuery) (v : Lit) : RangeQuery :=
  { q with upper := some v, includeUpper := false }

/-- The library call `rq.Lte(v)`: inclusive upper bound. -/
def RangeQuery.Lte (q : RangeQuery) (v : Lit) : RangeQuery :=
  { q with upper := some v, includeUpper := true }

/-- Modelled from the spec: the compiled predicate (`elastic.Query`, an
interface of the external query library, not in the sources) as the closed
union of the leaf kinds the builder constructs, one constructor per library
constructor the program calls.  `NewTermQuery` serves both term equality
(string or integer value) and boolean equality (boolean value). -/
inductive Query where
  | NewTermQuery (name : String) (value : Lit)
  | NewExistsQuery (name : String)
  | NewMatchQuery (name : String) (text : String)
  | NewMatchPhraseQuery (name : String) (text : String)
  | range (q : RangeQuery)
  deriving DecidableEq, Repr

/-! ## Text recognisers -/

/-- The class `\d` of the pattern: an ASCII decimal digit. -/
def isDigit (c : Char) : Bool := decide ('0' ≤ c) && decide (c ≤ '9')

/-- The class `[/.-]` of the pattern. -/
def isSep (c : Char) : Bool := c == '/' || c == '.' || c == '-'

/-- The pattern `\d{4}[/.-]\d{2}[/.-]\d{2}` matched at the START of the
characters given (whatever follows the ten characters is not looked at). -/
def SimpleDate.matchAt : List Char → Bool
  | d1 :: d2 :: d3 :: d4 :: s1 :: m1 :: m2 :: s2 :: e1 :: e2 :: _ =>
      isDigit d1 && isDigit d2 && isDigit d3 && isDigit d4 && isSep s1 &&
      isDigit m1 && isDigit m2 && isSep s2 && isDigit e1 && isDigit e2
  | _ => false

/-- The search of `regexp.MatchString` for an unanchored pattern: is there a
match starting at some position of the text. -/
def SimpleDate.search : List Char → Bool
  | [] => false
  | c :: cs => SimpleDate.matchAt (c :: cs) || SimpleDate.search cs

/-- The call `SimpleDate.MatchString(value)` for
`SimpleDate = regexp.MustCompile(\d{4}[/.-]\d{2}[/.-]\d{2})`: true when the
text CONTAINS a match of the pattern (the pattern carries no `^` or `$`). -/
def SimpleDate.MatchString (value : String) : Bool :=
  SimpleDate.search value.toList

/-- The value of a run of decimal digits read left to right from the
accumulator `acc`; `none` at the first character that is not a digit. -/
def digitsValue : Nat → List Char → Option Nat
  | acc, [] => some acc
  | acc, c :: cs =>
      if isDigit c then digitsValue (acc * 10 + (c.toNat - '0'.toNat)) cs else none

/-- An unsigned decimal numeral: one or more digits. -/
def parseDigits (cs : List Char) : Option Nat :=
  match cs with
  | [] => none
  | _ :: _ => digitsValue 0 cs

/-- The library function `strconv.Atoi(s)` with a 64-bit `int`: an optional sign (`+` or `-`), then
one or more decimal digits, the value within `[-2^63, 2^63 - 1]`; `none` is the
error result (syntax or range). -/
def Atoi (s : String) : Option Int :=
  match s.toList with
  | [] => none
  | c :: cs =>
      if c = '-' then
        match parseDigits cs with
        | some n => if n ≤ 2 ^ 63 then some (-(n : Int)) else none
        | none => none
      else
        match parseDigits (if c = '+' then cs else c :: cs) with
        | some n => if n < 2 ^ 63 then some (n : Int) else none
        | none => none

/-- The library function `strconv.ParseBool(str)`: the twelve accepted literals; `none` is the
error result. -/
def ParseBool (str : String) : Option Bool :=
  if str = "1" ∨ str = "t" ∨ str = "T" ∨ str = "TRUE" ∨ str = "true" ∨ str = "True" then
    some true
  else if str = "0" ∨ str = "f" ∨ str = "F" ∨ str = "FALSE" ∨ str = "false" ∨ str = "False" then
    some false
  else none

/-! ## Data model -/

/-- The constant `NoField`. -/
def NoField : String := "__ERR_NO_FIELD_SET__"

/-- The constant `GroupInitField`. -/
def GroupInitField : String := "__GROUP_INIT__"

/-- The type `RangeOp` with its five constants. -/
inductive RangeOp where
  | NoOp
  | LessThan
  | LessThanEqual
  | GreaterThan
  | GreaterThanEqual
  deriving DecidableEq, Repr

/-- The constant `NoQuery`: the nil query. -/
def NoQuery : Option Query := none

/-- The struct `Value`; `Q = none` is the nil interface value. -/
structure Value where
  Q : Option Query
  Field : String
  RangeOp : RangeOp
  Negate : Bool
  deriving DecidableEq, Repr

/-- An element of the stack read without its address: the pointer to the cell
of the package variable `GroupInit`, or a pointer to a node, given by the
content of its cell.  Two places of a `ValueStack` never share a cell; stacks
with one pointer at several places are states of `PtrStack`. -/
inductive ValueRef where
  | groupInit
  | cell (v : Value)
  deriving DecidableEq, Repr

/-- The content of the cell `GroupInit = &Value{nil, GroupInitField, NoOp, false}`. -/
def GroupInitValue : Value :=
  { Q := none, Field := GroupInitField, RangeOp := RangeOp.NoOp, Negate := false }

/-- The package variable `GroupInit`. -/
def GroupInit : ValueRef := ValueRef.groupInit

/-- Reading through a pointer (`p.Field`, `p.Q`, ...). -/
def ValueRef.deref : ValueRef → Value
  | ValueRef.groupInit => GroupInitValue
  | ValueRef.cell v => v

/-- The function `NewValue(negate)`: the content of the fresh cell. -/
def NewValue (negate : Bool) : Value :=
  { Q := NoQuery, Field := NoField, RangeOp := RangeOp.NoOp, Negate := negate }

/-- The struct `ValueStack`; the top of the stack is the last element. -/
structure ValueStack where
  stack : List ValueRef
  deriving DecidableEq, Repr

namespace ValueStack

/-- The method `Init()`. -/
def Init : ValueStack := { stack := [] }

/-- The method `Push(v)`. -/
def Push (vs : ValueStack) (v : ValueRef) : ValueStack :=
  { stack := vs.stack ++ [v] }

/-- The method `Empty()`. -/
def Empty (vs : ValueStack) : Bool := vs.stack.length == 0

/-- The method `Pop()`: the popped pointer (`none` is the nil result on an empty stack)
and the stack afterwards. -/
def Pop (vs : ValueStack) : Option ValueRef × ValueStack :=
  if vs.Empty then (none, vs)
  else (vs.stack.getLast?, { stack := vs.stack.dropLast })

/-- The method `current()`: the content of the cell the caller goes on to fill in and push
back, and the stack afterwards.  The top is popped only when the stack is not
empty, the top pointer is not `GroupInit` and the top has no query yet. -/
def current (vs : ValueStack) : Value × ValueStack :=
  match vs.stack.getLast? with
  | none => (NewValue false, vs)
  | some ValueRef.groupInit => (NewValue false, vs)
  | some (ValueRef.cell v) =>
      if v.Q ≠ NoQuery then (NewValue false, vs)
      else (v, { stack := vs.stack.dropLast })

/-- The method `StartGroup()`. -/
def StartGroup (vs : ValueStack) : ValueStack := vs.Push GroupInit

/-- The `for` loop of `PopGroup`, entered with the collected `out`, the pointer
`next` and the stack; `fuel` bounds the number of times the loop condition is
evaluated. -/
def PopGroup.loop : Nat → List ValueRef → Option ValueRef → ValueStack →
    List ValueRef × ValueStack
  | 0, out, _, vs => (out, vs)
  | fuel + 1, out, next, vs =>
      match next with
      | none => (out, vs)
      | some p =>
          if p.deref.Field ≠ GroupInitField then
            if vs.Empty then (out ++ [p], vs)
            else PopGroup.loop fuel (out ++ [p]) vs.Pop.1 vs.Pop.2
          else (out, vs)

/-- The method `PopGroup()`: the returned slice and the stack afterwards.  The loop
condition is evaluated at most once per element of the stack. -/
def PopGroup (vs : ValueStack) : List ValueRef × ValueStack :=
  PopGroup.loop (vs.stack.length + 1) [] vs.Pop.1 vs.Pop.2

/-- The method `SetNegation()`. -/
def SetNegation (vs : ValueStack) : ValueStack :=
  vs.Push (ValueRef.cell (NewValue true))

/-- The method `SetField(field)`. -/
def SetField (field : String) (vs : ValueStack) : ValueStack :=
  let v := vs.current.1
  vs.current.2.Push (ValueRef.cell { v with Field := field })

/-- The method `SetRangeOp(rop)`; `none` is the fatal `default:` branch. -/
def SetRangeOp (rop : String) (vs : ValueStack) : Option ValueStack :=
  let tmp := vs.current.1
  let vs1 := vs.current.2
  if rop = ">=" then
    some (vs1.Push (ValueRef.cell { tmp with RangeOp := RangeOp.GreaterThanEqual }))
  else if rop = "<=" then
    some (vs1.Push (ValueRef.cell { tmp with RangeOp := RangeOp.LessThanEqual }))
  else if rop = ">" then
    some (vs1.Push (ValueRef.cell { tmp with RangeOp := RangeOp.GreaterThan }))
  else if rop = "<" then
    some (vs1.Push (ValueRef.cell { tmp with RangeOp := RangeOp.LessThan }))
  else none

/-- The method `Boolean(value)`; `none` when `ParseBool` fails. -/
def Boolean (value : String) (vs : ValueStack) : Option ValueStack :=
  let tmp := vs.current.1
  match ParseBool value with
  | none => none
  | some b =>
      some (vs.current.2.Push
        (ValueRef.cell { tmp with Q := some (Query.NewTermQuery tmp.Field (Lit.bool b)) }))

/-- The method `Exists()`. -/
def Exists (vs : ValueStack) : ValueStack :=
  let tmp := vs.current.1
  vs.current.2.Push (ValueRef.cell { tmp with Q := some (Query.NewExistsQuery tmp.Field) })

/-- The method `Number(value)`; `none` when `Atoi` fails. -/
def Number (value : String) (vs : ValueStack) : Option ValueStack :=
  let tmp := vs.current.1
  match Atoi value with
  | none => none
  | some i =>
      some (vs.current.2.Push
        (ValueRef.cell { tmp with Q := some (Query.NewTermQuery tmp.Field (Lit.int i)) }))

/-- The assignment `if tmp.Field == NoField { tmp.Field = "_all" }` shared by
`Term`, `Match` and `Phrase`. -/
def defaultField (tmp : Value) : Value :=
  if tmp.Field = NoField then { tmp with Field := "_all" } else tmp

/-- The method `Term(term)`. -/
def Term (term : String) (vs : ValueStack) : ValueStack :=
  let tmp := defaultField vs.current.1
  vs.current.2.Push
    (ValueRef.cell { tmp with Q := some (Query.NewTermQuery tmp.Field (Lit.str term)) })

/-- The method `Match(text)`. -/
def Match (text : String) (vs : ValueStack) : ValueStack :=
  let tmp := defaultField vs.current.1
  vs.current.2.Push
    (ValueRef.cell { tmp with Q := some (Query.NewMatchQuery tmp.Field text) })

/-- The method `Phrase(phrase)`. -/
def Phrase (phrase : String) (vs : ValueStack) : ValueStack :=
  let tmp := defaultField vs.current.1
  vs.current.2.Push
    (ValueRef.cell { tmp with Q := some (Query.NewMatchPhraseQuery tmp.Field phrase) })

/-- The method `Date(value)`; `none` when the pattern does not match. -/
def Date (value : String) (vs : ValueStack) : Option ValueStack :=
  if ¬ SimpleDate.MatchString value then none
  else some (vs.Term value)

/-- The typed bound of `Range`: the text itself when the date pattern matches,
otherwise its integer value; `none` when `Atoi` fails. -/
def rangeValue (value : String) : Option Lit :=
  if SimpleDate.MatchString value then some (Lit.str value)
  else
    match Atoi value with
    | some i => some (Lit.int i)
    | none => none

/-- The method `Range(value)`; `none` on either fatal branch (the value is neither a date
nor an integer, or the range operator of the current value is `NoOp`). -/
def Range (value : String) (vs : ValueStack) : Option ValueStack :=
  let tmp := vs.current.1
  let rq := NewRangeQuery tmp.Field
  match rangeValue value with
  | none => none
  | some v =>
      match tmp.RangeOp with
      | RangeOp.LessThan =>
          some (vs.current.2.Push (ValueRef.cell { tmp with Q := some (Query.range (rq.Lt v)) }))
      | RangeOp.LessThanEqual =>
          some (vs.current.2.Push (ValueRef.cell { tmp with Q := some (Query.range (rq.Lte v)) }))
      | RangeOp.GreaterThan =>
          some (vs.current.2.Push (ValueRef.cell { tmp with Q := some (Query.range (rq.Gt v)) }))
      | RangeOp.GreaterThanEqual =>
          some (vs.current.2.Push (ValueRef.cell { tmp with Q := some (Query.range (rq.Gte v)) }))
      | RangeOp.NoOp => none

/-- The test `vs.Empty() || vs.stack[len(vs.stack) - 1].RangeOp == NoOp` of
`RangeOrNumber` and `RangeOrDate`. -/
def noRangeInProgress (vs : ValueStack) : Bool :=
  match vs.stack.getLast? with
  | none => true
  | some p => decide (p.deref.RangeOp = RangeOp.NoOp)

/-- The method `RangeOrNumber(value)`. -/
def RangeOrNumber (value : String) (vs : ValueStack) : Option ValueStack :=
  if vs.noRangeInProgress then vs.Number value else vs.Range value

/-- The method `RangeOrDate(value)`. -/
def RangeOrDate (value : String) (vs : ValueStack) : Option ValueStack :=
  if vs.noRangeInProgress then vs.Date value else vs.Range value

end ValueStack

/-- The date shape in the words of the specification: the whole text is four
digits, a separator from `/ . -`, two digits, a separator, two digits, with
nothing before and nothing after.  Used only to compare `Date` with it. -/
def specDateShape (text : String) : Bool :=
  decide (text.toList.length = 10) && SimpleDate.matchAt text.toList

/-- A call of one of the three staging operations. -/
inductive StagingOp where
  | SetNegation
  | SetField (field : String)
  | SetRangeOp (rop : String)
  deriving DecidableEq, Repr

/-- The effect of one staging call; `none` when the call is fatal. -/
def StagingOp.run : StagingOp → ValueStack → Option ValueStack
  | StagingOp.SetNegation, vs => some vs.SetNegation
  | StagingOp.SetField field, vs => some (vs.SetField field)
  | StagingOp.SetRangeOp rop, vs => vs.SetRangeOp rop

/-- The effect of a sequence of staging calls, first call first. -/
def runStaging : List StagingOp → ValueStack → Option ValueStack
  | [], vs => some vs
  | op :: ops, vs =>
      match op.run vs with
      | none => none
      | some vs1 => runStaging ops vs1

/-- The calls `Push(v1); ...; Push(vN)` made in this order. -/
def pushAll (vs : ValueStack) : List ValueRef → ValueStack
  | [] => vs
  | v :: rest => pushAll (vs.Push v) rest

/-- The results of `n` successive calls of `Pop()`, first call first, and the
stack afterwards. -/
def popN : Nat → ValueStack → List (Option ValueRef) × ValueStack
  | 0, vs => ([], vs)
  | n + 1, vs => (vs.Pop.1 :: (popN n vs.Pop.2).1, (popN n vs.Pop.2).2)

/-- A call of one of the public staging, grouping and leaf operations (every
public method but `Init`, `Push`, `Pop` and `Empty`). -/
inductive Op where
  | StartGroup
  | PopGroup
  | SetNegation
  | SetField (field : String)
  | SetRangeOp (rop : String)
  | Boolean (value : String)
  | Exists
  | Date (value : String)
  | Number (value : String)
  | Term (term : String)
  | Match (text : String)
  | Phrase (phrase : String)
  | Range (value : String)
  | RangeOrNumber (value : String)
  | RangeOrDate (value : String)
  deriving DecidableEq, Repr

/-- The stack after one call; `none` when the call is fatal.  The slice that
`PopGroup` returns is dropped here. -/
def Op.run : Op → ValueStack → Option ValueStack
  | Op.StartGroup, vs => some vs.StartGroup
  | Op.PopGroup, vs => some vs.PopGroup.2
  | Op.SetNegation, vs => some vs.SetNegation
  | Op.SetField field, vs => some (vs.SetField field)
  | Op.SetRangeOp rop, vs => vs.SetRangeOp rop
  | Op.Boolean value, vs => vs.Boolean value
  | Op.Exists, vs => some vs.Exists
  | Op.Date value, vs => vs.Date value
  | Op.Number value, vs => vs.Number value
  | Op.Term term, vs => some (vs.Term term)
  | Op.Match text, vs => some (vs.Match text)
  | Op.Phrase phrase, vs => some (vs.Phrase phrase)
  | Op.Range value, vs => vs.Range value
  | Op.RangeOrNumber value, vs => vs.RangeOrNumber value
  | Op.RangeOrDate value, vs => vs.RangeOrDate value

/-- The stack after a sequence of calls, first call first; `none` when one of
them is fatal. -/
def runOps : List Op → ValueStack → Option ValueStack
  | [], vs => some vs
  | op :: ops, vs =>
      match op.run vs with
      | none => none
      | some vs1 => runOps ops vs1

/-- The builder operations: every operation of `Op` but the two grouping
operations `StartGroup` and `PopGroup`. -/
def Op.isBuilder : Op → Bool
  | Op.StartGroup => false
  | Op.PopGroup => false
  | _ => true

/-- The top of the stack is an unfinished node: a cell of its own, not the
sentinel, without a query. -/
def topInProgress (vs : ValueStack) : Bool :=
  match vs.stack.getLast? with
  | some (ValueRef.cell v) => decide (v.Q = none)
  | _ => false

/-- Scan of a stack from the bottom: `seen` tells whether the run of elements
since the last sentinel already holds an unfinished node.  The result is true
when no run between sentinels holds two unfinished nodes. -/
def atMostOneInFlight : Bool → List ValueRef → Bool
  | _, [] => true
  | _, ValueRef.groupInit :: rest => atMostOneInFlight false rest
  | seen, ValueRef.cell v :: rest =>
      if v.Q = none then !seen && atMostOneInFlight true rest
      else atMostOneInFlight seen rest

/-- At most one unfinished node in each maximal run of stack elements between
sentinels. -/
def SingleInFlight (vs : ValueStack) : Bool := atMostOneInFlight false vs.stack

/-- The calling discipline of the negation marker: along the run of `ops` from
`vs`, every `SetNegation` is called on a stack whose top is not an unfinished
node (negation is the first token of a new node). -/
def negationOpensNode : List Op → ValueStack → Bool
  | [], _ => true
  | op :: ops, vs =>
      (!(decide (op = Op.SetNegation) && topInProgress vs)) &&
        (match op.run vs with
         | none => true
         | some vs1 => negationOpensNode ops vs1)

/-- The invariant behind `SingleInFlight`: an unfinished node is the top of the
stack or lies directly under a sentinel. -/
def stubsLast : List ValueRef → Bool
  | [] => true
  | [_] => true
  | ValueRef.groupInit :: q :: rest => stubsLast (q :: rest)
  | ValueRef.cell v :: q :: rest =>
      (decide (v.Q ≠ none) || decide (q = ValueRef.groupInit)) && stubsLast (q :: rest)

/-- A pointer to a real node, as `PopGroup` sees it: the field of the cell is
not the marker text (the cell `GroupInit` carries the marker text). -/
def IsMember (p : ValueRef) : Prop :=
  p ≠ ValueRef.groupInit ∧ p.deref.Field ≠ GroupInitField

instance instDecidableIsMember (p : ValueRef) : Decidable (IsMember p) :=
  inferInstanceAs (Decidable (p ≠ ValueRef.groupInit ∧ p.deref.Field ≠ GroupInitField))

/-! ## The stack with its pointers

The operations once more, with `*Value` kept as a pointer: the cells live in a
store and the stack holds their addresses, so that one pointer can stand on the
stack several times (`Push(v); Push(v)`) and a write through it shows at every
place.  `PtrStack.abs` reads a state of this model as a `ValueStack`. -/

/-- A `*Value`: the address of a cell of the store. -/
abbrev Addr := Nat

/-- The address of the cell of the package variable `GroupInit`, the first cell
made. -/
def GroupInitAddr : Addr := 0

/-- The program state with pointers: `heap` lists the contents of the cells in
the order they were made (cell `0` is the one of `GroupInit`), `stack` is
`vs.stack`, the pointers pushed, top last. -/
structure PtrStack where
  heap : List Value
  stack : List Addr
  deriving DecidableEq, Repr

namespace PtrStack

/-- The state of the package before any call: only the cell of `GroupInit`. -/
def start : PtrStack := { heap := [GroupInitValue], stack := [] }

/-- Reading the cell behind a pointer (`p.Field`, `p.Q`, ...). -/
def read (st : PtrStack) (p : Addr) : Value := st.heap.getD p GroupInitValue

/-- Writing the cell behind a pointer (`p.Field = ...`, `p.Q = ...`). -/
def write (st : PtrStack) (p : Addr) (v : Value) : PtrStack :=
  { st with heap := st.heap.set p v }

/-- Making a cell (`&Value{...}`): its address and the state afterwards. -/
def alloc (st : PtrStack) (v : Value) : Addr × PtrStack :=
  (st.heap.length, { st with heap := st.heap ++ [v] })

/-- The method `Init()`. -/
def Init (st : PtrStack) : PtrStack := { st with stack := [] }

/-- The method `Push(v)`. -/
def Push (st : PtrStack) (p : Addr) : PtrStack :=
  { st with stack := st.stack ++ [p] }

/-- The method `Empty()`. -/
def Empty (st : PtrStack) : Bool := st.stack.length == 0

/-- The method `Pop()`. -/
def Pop (st : PtrStack) : Option Addr × PtrStack :=
  if st.Empty then (none, st)
  else (st.stack.getLast?, { st with stack := st.stack.dropLast })

/-- The method `current()`: the pointer handed out and the state afterwards.
A new cell `NewValue(false)` is made when the stack is empty, the top pointer
is `GroupInit` or the top cell has a query; otherwise the top is popped. -/
def current (st : PtrStack) : Addr × PtrStack :=
  match st.stack.getLast? with
  | none => st.alloc (NewValue false)
  | some p =>
      if p = GroupInitAddr ∨ (st.read p).Q ≠ NoQuery then st.alloc (NewValue false)
      else (p, { st with stack := st.stack.dropLast })

/-- The method `StartGroup()`. -/
def StartGroup (st : PtrStack) : PtrStack := st.Push GroupInitAddr

/-- The `for` loop of `PopGroup`. -/
def PopGroup.loop : Nat → List Addr → Option Addr → PtrStack → List Addr × PtrStack
  | 0, out, _, st => (out, st)
  | fuel + 1, out, next, st =>
      match next with
      | none => (out, st)
      | some p =>
          if (st.read p).Field ≠ GroupInitField then
            if st.Empty then (out ++ [p], st)
            else PopGroup.loop fuel (out ++ [p]) st.Pop.1 st.Pop.2
          else (out, st)

/-- The method `PopGroup()`. -/
def PopGroup (st : PtrStack) : List Addr × PtrStack :=
  PopGroup.loop (st.stack.length + 1) [] st.Pop.1 st.Pop.2

/-- The method `SetNegation()`. -/
def SetNegation (st : PtrStack) : PtrStack :=
  (st.alloc (NewValue true)).2.Push (st.alloc (NewValue true)).1

/-- The method `SetField(field)`. -/
def SetField (field : String) (st : PtrStack) : PtrStack :=
  let v := st.current.1
  let st1 := st.current.2
  (st1.write v { st1.read v with Field := field }).Push v

/-- The method `SetRangeOp(rop)`. -/
def SetRangeOp (rop : String) (st : PtrStack) : Option PtrStack :=
  let tmp := st.current.1
  let st1 := st.current.2
  if rop = ">=" then
    some ((st1.write tmp { st1.read tmp with RangeOp := RangeOp.GreaterThanEqual }).Push tmp)
  else if rop = "<=" then
    some ((st1.write tmp { st1.read tmp with RangeOp := RangeOp.LessThanEqual }).Push tmp)
  else if rop = ">" then
    some ((st1.write tmp { st1.read tmp with RangeOp := RangeOp.GreaterThan }).Push tmp)
  else if rop = "<" then
    some ((st1.write tmp { st1.read tmp with RangeOp := RangeOp.LessThan }).Push tmp)
  else none

/-- The method `Boolean(value)`. -/
def Boolean (value : String) (st : PtrStack) : Option PtrStack :=
  let tmp := st.current.1
  let st1 := st.current.2
  match ParseBool value with
  | none => none
  | some b =>
      some ((st1.write tmp { st1.read tmp with
        Q := some (Query.NewTermQuery (st1.read tmp).Field (Lit.bool b)) }).Push tmp)

/-- The method `Exists()`. -/
def Exists (st : PtrStack) : PtrStack :=
  let tmp := st.current.1
  let st1 := st.current.2
  (st1.write tmp { st1.read tmp with
    Q := some (Query.NewExistsQuery (st1.read tmp).Field) }).Push tmp

/-- The method `Number(value)`. -/
def Number (value : String) (st : PtrStack) : Option PtrStack :=
  let tmp := st.current.1
  let st1 := st.current.2
  match Atoi value with
  | none => none
  | some i =>
      some ((st1.write tmp { st1.read tmp with
        Q := some (Query.NewTermQuery (st1.read tmp).Field (Lit.int i)) }).Push tmp)

/-- The method `Term(term)`. -/
def Term (term : String) (st : PtrStack) : PtrStack :=
  let tmp := st.current.1
  let st1 := st.current.2
  (st1.write tmp { ValueStack.defaultField (st1.read tmp) with
    Q := some (Query.NewTermQuery (ValueStack.defaultField (st1.read tmp)).Field (Lit.str term)) }).Push tmp

/-- The method `Match(text)`. -/
def Match (text : String) (st : PtrStack) : PtrStack :=
  let tmp := st.current.1
  let st1 := st.current.2
  (st1.write tmp { ValueStack.defaultField (st1.read tmp) with
    Q := some (Query.NewMatchQuery (ValueStack.defaultField (st1.read tmp)).Field text) }).Push tmp

/-- The method `Phrase(phrase)`. -/
def Phrase (phrase : String) (st : PtrStack) : PtrStack :=
  let tmp := st.current.1
  let st1 := st.current.2
  (st1.write tmp { ValueStack.defaultField (st1.read tmp) with
    Q := some (Query.NewMatchPhraseQuery (ValueStack.defaultField (st1.read tmp)).Field phrase) }).Push tmp

/-- The method `Date(value)`. -/
def Date (value : String) (st : PtrStack) : Option PtrStack :=
  if ¬ SimpleDate.MatchString value then none
  else some (st.Term value)

/-- The method `Range(value)`. -/
def Range (value : String) (st : PtrStack) : Option PtrStack :=
  let tmp := st.current.1
  let st1 := st.current.2
  let rq := NewRangeQuery (st1.read tmp).Field
  match ValueStack.rangeValue value with
  | none => none
  | some v =>
      match (st1.read tmp).RangeOp with
      | RangeOp.LessThan =>
          some ((st1.write tmp { st1.read tmp with Q := some (Query.range (rq.Lt v)) }).Push tmp)
      | RangeOp.LessThanEqual =>
          some ((st1.write tmp { st1.read tmp with Q := some (Query.range (rq.Lte v)) }).Push tmp)
      | RangeOp.GreaterThan =>
          some ((st1.write tmp { st1.read tmp with Q := some (Query.range (rq.Gt v)) }).Push tmp)
      | RangeOp.GreaterThanEqual =>
          some ((st1.write tmp { st1.read tmp with Q := some (Query.range (rq.Gte v)) }).Push tmp)
      | RangeOp.NoOp => none

/-- The test `vs.Empty() || vs.stack[len(vs.stack) - 1].RangeOp == NoOp`. -/
def noRangeInProgress (st : PtrStack) : Bool :=
  match st.stack.getLast? with
  | none => true
  | some p => decide ((st.read p).RangeOp = RangeOp.NoOp)

/-- The method `RangeOrNumber(value)`. -/
def RangeOrNumber (value : String) (st : PtrStack) : Option PtrStack :=
  if st.noRangeInProgress then st.Number value else st.Range value

/-- The method `RangeOrDate(value)`. -/
def RangeOrDate (value : String) (st : PtrStack) : Option PtrStack :=
  if st.noRangeInProgress then st.Date value else st.Range value

/-- A pointer read as a stack element: the pointer to the cell of `GroupInit`
is the sentinel, any other pointer stands for the content of its cell. -/
def view (st : PtrStack) (p : Addr) : ValueRef :=
  if p = GroupInitAddr then ValueRef.groupInit else ValueRef.cell (st.read p)

/-- The stack of pointers read as a stack of sentinels and node contents. -/
def abs (st : PtrStack) : ValueStack := { stack := st.stack.map st.view }

/-- The states a Go program can be in: the cell of `GroupInit` is as the
package made it, and every pointer on the stack points to a cell. -/
def WF (st : PtrStack) : Prop :=
  st.heap[0]? = some GroupInitValue ∧ ∀ p ∈ st.stack, p < st.heap.length

/-- The pointer on top of the stack is the pointer of an unfinished node and
stands on the stack a second time, below the top. -/
def topShared (st : PtrStack) : Bool :=
  match st.stack.getLast? with
  | none => false
  | some p =>
      decide (p ≠ GroupInitAddr) && decide ((st.read p).Q = none) &&
        st.stack.dropLast.contains p

end PtrStack

/-- The shape shared by the builder operations other than `SetNegation`, with
pointers: take the pointer `current` hands out, assign `g` of its cell to the
cell, push the pointer back. -/
def PtrStack.fillTop (g : Value → Value) (st : PtrStack) : PtrStack :=
  (st.current.2.write st.current.1 (g (st.current.2.read st.current.1))).Push st.current.1

/-- The same shape on the stack of values. -/
def ValueStack.fillTop (g : Value → Value) (vs : ValueStack) : ValueStack :=
  vs.current.2.Push (ValueRef.cell (g vs.current.1))

instance instDecidablePtrStackWF (st : PtrStack) : Decidable st.WF :=
  inferInstanceAs (Decidable (st.heap[0]? = some GroupInitValue ∧
    ∀ p ∈ st.stack, p < st.heap.length))

/-- The state after one call, with pointers; `none` when the call is fatal. -/
def Op.runPtr : Op → PtrStack → Option PtrStack
  | Op.StartGroup, st => some st.StartGroup
  | Op.PopGroup, st => some st.PopGroup.2
  | Op.SetNegation, st => some st.SetNegation
  | Op.SetField field, st => some (st.SetField field)
  | Op.SetRangeOp rop, st => st.SetRangeOp rop
  | Op.Boolean value, st => st.Boolean value
  | Op.Exists, st => some st.Exists
  | Op.Date value, st => st.Date value
  | Op.Number value, st => st.Number value
  | Op.Term term, st => some (st.Term term)
  | Op.Match text, st => some (st.Match text)
  | Op.Phrase phrase, st => some (st.Phrase phrase)
  | Op.Range value, st => st.Range value
  | Op.RangeOrNumber value, st => st.RangeOrNumber value
  | Op.RangeOrDate value, st => st.RangeOrDate value

/-- The state after a sequence of calls, with pointers, first call first;
`none` when one of them is fatal. -/
def runOpsPtr : List Op → PtrStack → Option PtrStack
  | [], st => some st
  | op :: ops, st =>
      match op.runPtr st with
      | none => none
      | some st1 => runOpsPtr ops st1

/-- No pointer to a node stands on the stack twice (the pointer to the cell of
`GroupInit` may). -/
def PtrStack.nodesDistinct (st : PtrStack) : Prop :=
  (st.stack.filter (fun p => decide (p ≠ GroupInitAddr))).Nodup

/-- The frame of a call, read off the stacks before and after: the stack after
is the stack before with one node appended, or with only its top replaced;
all below the top is unchanged and in the same order; the length does not
decrease and grows by at most one; a sentinel stays where it was. -/
def Frame (before after : ValueStack) : Prop :=
  ((∃ new, after.stack = before.stack ++ [ValueRef.cell new]) ∨
    (∃ s old new, before.stack = s ++ [ValueRef.cell old] ∧
      after.stack = s ++ [ValueRef.cell new])) ∧
  after.stack.take (before.stack.length - 1) = before.stack.take (before.stack.length - 1) ∧
  before.stack.length ≤ after.stack.length ∧
  after.stack.length ≤ before.stack.length + 1 ∧
  (∀ i : Nat, before.stack[i]? = some ValueRef.groupInit →
    after.stack[i]? = some ValueRef.groupInit)

open ValueStack

/-! ## Basic facts about the stack primitives -/

theorem Pop_nil : Pop { stack := [] } = (none, { stack := [] }) := rfl

theorem Pop_append (s : List ValueRef) (p : ValueRef) :
    Pop { stack := s ++ [p] } = (some p, { stack := s }) := by
  simp [Pop, ValueStack.Empty]

theorem current_nil : current { stack := [] } = (NewValue false, { stack := [] }) := rfl

theorem current_groupInit (s : List ValueRef) :
    current { stack := s ++ [ValueRef.groupInit] } =
      (NewValue false, { stack := s ++ [ValueRef.groupInit] }) := by
  simp [current]

theorem current_finalized (s : List ValueRef) (v : Value) (h : v.Q ≠ none) :
    current { stack := s ++ [ValueRef.cell v] } =
      (NewValue false, { stack := s ++ [ValueRef.cell v] }) := by
  simp [current, NoQuery, h]

theorem current_inProgress (s : List ValueRef) (v : Value) (h : v.Q = none) :
    current { stack := s ++ [ValueRef.cell v] } = (v, { stack := s }) := by
  simp [current, NoQuery, h]

theorem loop_to_sentinel (s : List ValueRef) :
    ∀ (ns : List ValueRef), (∀ p ∈ ns, IsMember p) →
      ∀ (fuel : Nat) (out : List ValueRef), ns.length + 1 ≤ fuel →
        PopGroup.loop fuel out (Pop { stack := s ++ [GroupInit] ++ ns }).1
            (Pop { stack := s ++ [GroupInit] ++ ns }).2
          = (out ++ ns.reverse, { stack := s }) := by
  intro ns
  induction ns using List.reverseRecOn with
  | nil =>
      intro _ fuel out hf
      obtain ⟨k, rfl⟩ : ∃ k, fuel = k + 1 := ⟨fuel - 1, by omega⟩
      simp [Pop_append, PopGroup.loop, GroupInit, ValueRef.deref, GroupInitValue]
  | append_singleton ns p ih =>
      intro hns fuel out hf
      obtain ⟨k, rfl⟩ : ∃ k, fuel = k + 1 := ⟨fuel - 1, by omega⟩
      have hp : IsMember p := hns p (by simp)
      have hrest : ∀ q ∈ ns, IsMember q := fun q hq => hns q (by simp [hq])
      have hk : ns.length + 1 ≤ k := by simp at hf; omega
      rw [← List.append_assoc, Pop_append]
      simp only [PopGroup.loop]
      rw [if_pos hp.2]
      have hne : ValueStack.Empty { stack := s ++ [GroupInit] ++ ns } = false := by
        simp [ValueStack.Empty]
      rw [hne]
      simp only [Bool.false_eq_true, if_false]
      rw [ih hrest k (out ++ [p]) hk]
      simp

theorem loop_to_bottom :
    ∀ (ns : List ValueRef), (∀ p ∈ ns, IsMember p) →
      ∀ (fuel : Nat) (out : List ValueRef), ns.length + 1 ≤ fuel →
        PopGroup.loop fuel out (Pop { stack := ns }).1 (Pop { stack := ns }).2
          = (out ++ ns.reverse, { stack := [] }) := by
  intro ns
  induction ns using List.reverseRecOn with
  | nil =>
      intro _ fuel out hf
      obtain ⟨k, rfl⟩ : ∃ k, fuel = k + 1 := ⟨fuel - 1, by omega⟩
      simp [Pop_nil, PopGroup.loop]
  | append_singleton ns p ih =>
      intro hns fuel out hf
      obtain ⟨k, rfl⟩ : ∃ k, fuel = k + 1 := ⟨fuel - 1, by omega⟩
      have hp : IsMember p := hns p (by simp)
      have hrest : ∀ q ∈ ns, IsMember q := fun q hq => hns q (by simp [hq])
      have hk : ns.length + 1 ≤ k := by simp at hf; omega
      rw [Pop_append]
      simp only [PopGroup.loop]
      rw [if_pos hp.2]
      by_cases hE : ValueStack.Empty { stack := ns } = true
      · have hnil : ns = [] := by simpa [ValueStack.Empty] using hE
        subst hnil
        simp [ValueStack.Empty]
      · rw [if_neg hE, ih hrest k (out ++ [p]) hk]
        simp

/-- The loop of `PopGroup` never runs out of fuel: from one more than the
length of the stack on, the amount of fuel does not change its result. -/
theorem loop_fuel_irrelevant :
    ∀ (l : List ValueRef) (out : List ValueRef) (f1 f2 : Nat),
      l.length + 1 ≤ f1 → l.length + 1 ≤ f2 →
        PopGroup.loop f1 out (Pop { stack := l }).1 (Pop { stack := l }).2 =
          PopGroup.loop f2 out (Pop { stack := l }).1 (Pop { stack := l }).2 := by
  intro l
  induction l using List.reverseRecOn with
  | nil =>
      intro out f1 f2 h1 h2
      obtain ⟨k1, rfl⟩ : ∃ k, f1 = k + 1 := ⟨f1 - 1, by omega⟩
      obtain ⟨k2, rfl⟩ : ∃ k, f2 = k + 1 := ⟨f2 - 1, by omega⟩
      simp [Pop_nil, PopGroup.loop]
  | append_singleton l p ih =>
      intro out f1 f2 h1 h2
      obtain ⟨k1, rfl⟩ : ∃ k, f1 = k + 1 := ⟨f1 - 1, by omega⟩
      obtain ⟨k2, rfl⟩ : ∃ k, f2 = k + 1 := ⟨f2 - 1, by omega⟩
      have hk1 : l.length + 1 ≤ k1 := by simp at h1; omega
      have hk2 : l.length + 1 ≤ k2 := by simp at h2; omega
      rw [Pop_append]
      simp only [PopGroup.loop]
      rw [ih (out ++ [p]) k1 k2 hk1 hk2]

/-! ## Grouping -/

theorem PopGroup_to_sentinel (s ns : List ValueRef) (hns : ∀ p ∈ ns, IsMember p) :
    PopGroup { stack := s ++ [GroupInit] ++ ns } = (ns.reverse, { stack := s }) := by
  have h := loop_to_sentinel s ns hns ((s ++ [GroupInit] ++ ns).length + 1) []
    (by simp; omega)
  simpa [PopGroup] using h

theorem PopGroup_to_bottom (ns : List ValueRef) (hns : ∀ p ∈ ns, IsMember p) :
    PopGroup { stack := ns } = (ns.reverse, { stack := [] }) := by
  have h := loop_to_bottom ns hns (ns.length + 1) [] (Nat.le_refl _)
  simpa [PopGroup] using h

/-- Reverse push order, as far as it holds: `PopGroup` returns the members of
the group in reverse push order and unwinds exactly to the matching sentinel.
For every list `ns` of nodes none of which carries the marker field text,
pushed above a sentinel on any stack `s`, `PopGroup` returns `reverse ns` and
leaves `s` (the sentinel is dropped and is not in the output); on a stack `ns`
of such nodes without any sentinel it returns `reverse ns` and leaves the
stack empty; on the empty stack the output is empty.  The call sequence `StartGroup; SetField "status";
Term "active"; SetNegation; SetField "type"; Term "bot"; PopGroup`, started
on any stack, returns the negated `type` node first and the `status` node
second, and restores the stack. -/
theorem PopGroup_reverse_push_order (s ns : List ValueRef)
    (hns : ∀ p ∈ ns, p ≠ ValueRef.groupInit ∧ p.deref.Field ≠ GroupInitField) :
    PopGroup { stack := s ++ [GroupInit] ++ ns } = (ns.reverse, { stack := s }) ∧
    PopGroup { stack := ns } = (ns.reverse, { stack := [] }) ∧
    PopGroup { stack := [] } = ([], { stack := [] }) ∧
    PopGroup (Term "bot" (SetField "type" (SetNegation (Term "active"
        (SetField "status" (StartGroup { stack := s })))))) =
      ([ValueRef.cell { Q := some (Query.NewTermQuery "type" (Lit.str "bot")),
                        Field := "type", RangeOp := RangeOp.NoOp, Negate := true },
        ValueRef.cell { Q := some (Query.NewTermQuery "status" (Lit.str "active")),
                        Field := "status", RangeOp := RangeOp.NoOp, Negate := false }],
       { stack := s }) := by
  refine ⟨PopGroup_to_sentinel s ns hns, PopGroup_to_bottom ns hns, rfl, ?_⟩
  have hstack : Term "bot" (SetField "type" (SetNegation (Term "active"
      (SetField "status" (StartGroup { stack := s }))))) =
      { stack := s ++ [GroupInit] ++
          [ValueRef.cell { Q := some (Query.NewTermQuery "status" (Lit.str "active")),
                           Field := "status", RangeOp := RangeOp.NoOp, Negate := false },
           ValueRef.cell { Q := some (Query.NewTermQuery "type" (Lit.str "bot")),
                           Field := "type", RangeOp := RangeOp.NoOp, Negate := true }] } := by
    simp [StartGroup, SetField, Term, SetNegation, Push, current, NewValue, NoQuery,
      defaultField, GroupInit, NoField]
  rw [hstack, PopGroup_to_sentinel s _ (by decide)]
  rfl

/-- Reverse push order at a concrete stack: two real nodes above a sentinel
that sits on a finalized node. -/
theorem PopGroup_reverse_push_order_example :
    PopGroup { stack :=
        [ValueRef.cell { Q := some (Query.NewExistsQuery "k"), Field := "k",
                         RangeOp := RangeOp.NoOp, Negate := false }] ++ [GroupInit] ++
        [ValueRef.cell { Q := some (Query.NewTermQuery "a" (Lit.int 1)), Field := "a",
                         RangeOp := RangeOp.NoOp, Negate := false },
         ValueRef.cell { Q := none, Field := "b", RangeOp := RangeOp.GreaterThan,
                         Negate := true }] } =
      ([ValueRef.cell { Q := none, Field := "b", RangeOp := RangeOp.GreaterThan,
                        Negate := true },
        ValueRef.cell { Q := some (Query.NewTermQuery "a" (Lit.int 1)), Field := "a",
                        RangeOp := RangeOp.NoOp, Negate := false }],
       { stack := [ValueRef.cell { Q := some (Query.NewExistsQuery "k"), Field := "k",
                                   RangeOp := RangeOp.NoOp, Negate := false }] }) :=
  (PopGroup_reverse_push_order
    [ValueRef.cell { Q := some (Query.NewExistsQuery "k"), Field := "k",
                     RangeOp := RangeOp.NoOp, Negate := false }]
    [ValueRef.cell { Q := some (Query.NewTermQuery "a" (Lit.int 1)), Field := "a",
                     RangeOp := RangeOp.NoOp, Negate := false },
     ValueRef.cell { Q := none, Field := "b", RangeOp := RangeOp.GreaterThan,
                     Negate := true }]
    (by decide)).1

/-- C1: evaluation on a stack without sentinel.  After `Init(); SetField
"__GROUP_INIT__"; Term "y"` the stack holds one finalized real node and no
sentinel, so the reverse of the whole stack is that node; yet `PopGroup`
returns the empty slice and leaves the stack empty: the node is popped, its
field text equals the marker text, the loop does not run and the node is
dropped.  With a second node `b` pushed above it, `PopGroup` returns `b` alone.
On the stack with the same two nodes under other field texts the clause does
hold. -/
theorem C1_PopGroup_without_sentinel_drops_marker_text_node :
    Term "y" (SetField "__GROUP_INIT__" Init) =
      { stack := [ValueRef.cell
          (Value.mk (some (Query.NewTermQuery "__GROUP_INIT__" (Lit.str "y")))
            "__GROUP_INIT__" RangeOp.NoOp false)] } ∧
    ValueRef.groupInit ∉ (Term "y" (SetField "__GROUP_INIT__" Init)).stack ∧
    PopGroup (Term "y" (SetField "__GROUP_INIT__" Init)) = ([], { stack := [] }) ∧
    PopGroup (Term "z" (SetField "b" (Term "y" (SetField "__GROUP_INIT__" Init)))) =
      ([ValueRef.cell (Value.mk (some (Query.NewTermQuery "b" (Lit.str "z"))) "b"
          RangeOp.NoOp false)],
       { stack := [] }) ∧
    PopGroup (Term "z" (SetField "b" (Term "y" (SetField "a" Init)))) =
      ([ValueRef.cell (Value.mk (some (Query.NewTermQuery "b" (Lit.str "z"))) "b"
          RangeOp.NoOp false),
        ValueRef.cell (Value.mk (some (Query.NewTermQuery "a" (Lit.str "y"))) "a"
          RangeOp.NoOp false)],
       { stack := [] }) := by
  decide

/-! ## Staging -/

/-- C2: staging reuse.  On every stack and for every field text `x`, the calls
`SetNegation; SetField x; SetRangeOp tok` with `tok` one of the four comparison
tokens succeed and add exactly one element above the unchanged stack: a node
with `Negate = true`, `Field = x`, the range operator of the token and no
query. -/
theorem C2_staging_reuse_single_node (vs : ValueStack) (x : String) :
    SetRangeOp ">" (SetField x (SetNegation vs)) =
      some { stack := vs.stack ++
        [ValueRef.cell { Q := none, Field := x, RangeOp := RangeOp.GreaterThan,
                         Negate := true }] } ∧
    SetRangeOp "<" (SetField x (SetNegation vs)) =
      some { stack := vs.stack ++
        [ValueRef.cell { Q := none, Field := x, RangeOp := RangeOp.LessThan,
                         Negate := true }] } ∧
    SetRangeOp ">=" (SetField x (SetNegation vs)) =
      some { stack := vs.stack ++
        [ValueRef.cell { Q := none, Field := x, RangeOp := RangeOp.GreaterThanEqual,
                         Negate := true }] } ∧
    SetRangeOp "<=" (SetField x (SetNegation vs)) =
      some { stack := vs.stack ++
        [ValueRef.cell { Q := none, Field := x, RangeOp := RangeOp.LessThanEqual,
                         Negate := true }] } := by
  refine ⟨?_, ?_, ?_, ?_⟩ <;>
    simp [SetNegation, SetField, SetRangeOp, Push, current, NewValue, NoQuery]

/-- The stack `current` leaves is the stack it found, or that stack without
its top when the top was an unfinished node. -/
theorem current_stack_cases (vs : ValueStack) :
    (current vs).2 = vs ∨
      ∃ l w, vs.stack = l ++ [ValueRef.cell w] ∧ w.Q = none ∧
        (current vs).2 = { stack := l } := by
  rcases List.eq_nil_or_concat vs.stack with h | ⟨l, p, h⟩
  · left
    cases vs
    simp only at h
    subst h
    rfl
  · cases vs with
    | mk st =>
      simp only [List.concat_eq_append] at h
      subst h
      cases p with
      | groupInit => left; exact congrArg Prod.snd (current_groupInit l)
      | cell w =>
          by_cases hw : w.Q = none
          · right
            exact ⟨l, w, rfl, hw, congrArg Prod.snd (current_inProgress l w hw)⟩
          · left
            exact congrArg Prod.snd (current_finalized l w hw)

/-- The value `current` hands out has no query yet. -/
theorem current_Q_none (vs : ValueStack) : (current vs).1.Q = none := by
  rcases List.eq_nil_or_concat vs.stack with h | ⟨l, p, h⟩
  · cases vs
    simp only at h
    subst h
    rfl
  · cases vs with
    | mk st =>
      simp only [List.concat_eq_append] at h
      subst h
      cases p with
      | groupInit => rw [current_groupInit]; rfl
      | cell w =>
          by_cases hw : w.Q = none
          · rw [current_inProgress l w hw]; exact hw
          · rw [current_finalized l w hw]; rfl

/-- Below and at a finalized node, `current` leaves the stack as it was. -/
theorem current_keeps_finalized (vs : ValueStack) (i : Nat) (v : Value)
    (hi : vs.stack[i]? = some (ValueRef.cell v)) (hv : v.Q ≠ none) :
    (current vs).2.stack.take (i + 1) = vs.stack.take (i + 1) ∧
      i < (current vs).2.stack.length := by
  have hlt : i < vs.stack.length := (List.getElem?_eq_some_iff.mp hi).1
  rcases current_stack_cases vs with h | ⟨l, w, hst, hw, h⟩
  · rw [h]
    exact ⟨rfl, hlt⟩
  · rw [h, hst]
    have hil : i < l.length := by
      rw [hst] at hi hlt
      simp only [List.length_append, List.length_singleton] at hlt
      rcases Nat.lt_or_ge i l.length with h1 | h1
      · exact h1
      · have h2 : i = l.length := by omega
        subst h2
        simp at hi
        subst hi
        exact absurd hw hv
    refine ⟨?_, hil⟩
    simp only
    rw [List.take_append_of_le_length (by omega)]

/-- Pushing leaves every position of the stack as it was. -/
theorem Push_take (vs : ValueStack) (p : ValueRef) (n : Nat) (hn : n ≤ vs.stack.length) :
    (vs.Push p).stack.take n = vs.stack.take n := by
  simp only [Push]
  rw [List.take_append_of_le_length hn]

/-- One staging call leaves a finalized node and all below it as they were. -/
theorem stagingStep_keeps_finalized (op : StagingOp) (vs vs1 : ValueStack)
    (hrun : op.run vs = some vs1) (i : Nat) (v : Value)
    (hi : vs.stack[i]? = some (ValueRef.cell v)) (hv : v.Q ≠ none) :
    vs1.stack.take (i + 1) = vs.stack.take (i + 1) := by
  have hlt : i < vs.stack.length := (List.getElem?_eq_some_iff.mp hi).1
  obtain ⟨hc, hcl⟩ := current_keeps_finalized vs i v hi hv
  cases op with
  | SetNegation =>
      simp only [StagingOp.run, Option.some.injEq] at hrun
      subst hrun
      exact Push_take vs _ _ (by omega)
  | SetField field =>
      simp only [StagingOp.run, Option.some.injEq] at hrun
      subst hrun
      simp only [SetField]
      rw [Push_take _ _ _ (by omega), hc]
  | SetRangeOp rop =>
      simp only [StagingOp.run, SetRangeOp] at hrun
      split_ifs at hrun <;>
        (simp only [Option.some.injEq] at hrun
         subst hrun
         rw [Push_take _ _ _ (by omega), hc])

/-- A sequence of staging calls leaves a finalized node and all below it as
they were. -/
theorem runStaging_keeps_finalized (ops : List StagingOp) :
    ∀ (vs vs1 : ValueStack), runStaging ops vs = some vs1 →
      ∀ (i : Nat) (v : Value), vs.stack[i]? = some (ValueRef.cell v) → v.Q ≠ none →
        vs1.stack.take (i + 1) = vs.stack.take (i + 1) := by
  induction ops with
  | nil =>
      intro vs vs1 h i v _ _
      simp only [runStaging, Option.some.injEq] at h
      rw [h]
  | cons op ops ih =>
      intro vs vs1 h i v hi hv
      simp only [runStaging] at h
      cases hop : op.run vs with
      | none => rw [hop] at h; exact absurd h (by simp)
      | some vs2 =>
          rw [hop] at h
          have h2 := stagingStep_keeps_finalized op vs vs2 hop i v hi hv
          have hi2 : vs2.stack[i]? = some (ValueRef.cell v) := by
            have e1 : (vs2.stack.take (i + 1))[i]? = vs2.stack[i]? := by
              simp [List.getElem?_take]
            have e2 : (vs.stack.take (i + 1))[i]? = vs.stack[i]? := by
              simp [List.getElem?_take]
            rw [← e1, h2, e2, hi]
          rw [ih vs2 vs1 h i v hi2 hv, h2]

/-- C3: finalization boundary.  On a stack whose top is a finalized node
(`Q` set), each of `SetField f`, `SetNegation` and `SetRangeOp` with a valid
token leaves the whole stack, the finalized node included, as it was and pushes
one new node above it.  For every sequence of staging calls that runs to its
end on any stack, a node that was finalized before the sequence, and every
element below it, is at the same position and unchanged afterwards. -/
theorem C3_finalization_boundary (s : List ValueRef) (v : Value) (hv : v.Q ≠ none)
    (f : String) :
    SetField f { stack := s ++ [ValueRef.cell v] } =
      { stack := s ++ [ValueRef.cell v] ++
          [ValueRef.cell { Q := none, Field := f, RangeOp := RangeOp.NoOp, Negate := false }] } ∧
    SetNegation { stack := s ++ [ValueRef.cell v] } =
      { stack := s ++ [ValueRef.cell v] ++
          [ValueRef.cell { Q := none, Field := NoField, RangeOp := RangeOp.NoOp,
                           Negate := true }] } ∧
    SetRangeOp ">" { stack := s ++ [ValueRef.cell v] } =
      some { stack := s ++ [ValueRef.cell v] ++
          [ValueRef.cell { Q := none, Field := NoField, RangeOp := RangeOp.GreaterThan,
                           Negate := false }] } ∧
    SetRangeOp "<" { stack := s ++ [ValueRef.cell v] } =
      some { stack := s ++ [ValueRef.cell v] ++
          [ValueRef.cell { Q := none, Field := NoField, RangeOp := RangeOp.LessThan,
                           Negate := false }] } ∧
    SetRangeOp ">=" { stack := s ++ [ValueRef.cell v] } =
      some { stack := s ++ [ValueRef.cell v] ++
          [ValueRef.cell { Q := none, Field := NoField, RangeOp := RangeOp.GreaterThanEqual,
                           Negate := false }] } ∧
    SetRangeOp "<=" { stack := s ++ [ValueRef.cell v] } =
      some { stack := s ++ [ValueRef.cell v] ++
          [ValueRef.cell { Q := none, Field := NoField, RangeOp := RangeOp.LessThanEqual,
                           Negate := false }] } ∧
    (∀ (ops : List StagingOp) (vs vs1 : ValueStack), runStaging ops vs = some vs1 →
      ∀ (i : Nat) (w : Value), vs.stack[i]? = some (ValueRef.cell w) → w.Q ≠ none →
        vs1.stack.take (i + 1) = vs.stack.take (i + 1)) := by
  have hc := current_finalized s v hv
  refine ⟨?_, ?_, ?_, ?_, ?_, ?_, ?_⟩
  · simp [SetField, hc, Push, NewValue, NoQuery]
  · simp [SetNegation, Push, NewValue, NoQuery]
  · simp [SetRangeOp, hc, Push, NewValue, NoQuery]
  · simp [SetRangeOp, hc, Push, NewValue, NoQuery]
  · simp [SetRangeOp, hc, Push, NewValue, NoQuery]
  · simp [SetRangeOp, hc, Push, NewValue, NoQuery]
  · intro ops vs vs1 h i w hi hw
    exact runStaging_keeps_finalized ops vs vs1 h i w hi hw

/-- C3 at a concrete stack: a sentinel with a finalized node above it, one
`SetField` call, and a run of four staging calls. -/
theorem C3_finalization_boundary_witness :
    SetField "x" { stack := [ValueRef.groupInit] ++
        [ValueRef.cell { Q := some (Query.NewExistsQuery "k"), Field := "k",
                         RangeOp := RangeOp.NoOp, Negate := false }] } =
      { stack := [ValueRef.groupInit] ++
          [ValueRef.cell { Q := some (Query.NewExistsQuery "k"), Field := "k",
                           RangeOp := RangeOp.NoOp, Negate := false }] ++
          [ValueRef.cell { Q := none, Field := "x", RangeOp := RangeOp.NoOp,
                           Negate := false }] } ∧
    List.take 2
        [ValueRef.groupInit,
         ValueRef.cell { Q := some (Query.NewExistsQuery "k"), Field := "k",
                         RangeOp := RangeOp.NoOp, Negate := false },
         ValueRef.cell { Q := none, Field := "b", RangeOp := RangeOp.GreaterThan,
                         Negate := true }] =
      List.take 2
        [ValueRef.groupInit,
         ValueRef.cell { Q := some (Query.NewExistsQuery "k"), Field := "k",
                         RangeOp := RangeOp.NoOp, Negate := false }] :=
  ⟨(C3_finalization_boundary [ValueRef.groupInit]
      { Q := some (Query.NewExistsQuery "k"), Field := "k", RangeOp := RangeOp.NoOp,
        Negate := false } (by decide) "x").1,
   (C3_finalization_boundary [ValueRef.groupInit]
      { Q := some (Query.NewExistsQuery "k"), Field := "k", RangeOp := RangeOp.NoOp,
        Negate := false } (by decide) "x").2.2.2.2.2.2
      [StagingOp.SetNegation, StagingOp.SetField "a", StagingOp.SetRangeOp ">",
       StagingOp.SetField "b"]
      { stack := [ValueRef.groupInit,
         ValueRef.cell { Q := some (Query.NewExistsQuery "k"), Field := "k",
                         RangeOp := RangeOp.NoOp, Negate := false }] }
      { stack := [ValueRef.groupInit,
         ValueRef.cell { Q := some (Query.NewExistsQuery "k"), Field := "k",
                         RangeOp := RangeOp.NoOp, Negate := false },
         ValueRef.cell { Q := none, Field := "b", RangeOp := RangeOp.GreaterThan,
                         Negate := true }] }
      (by decide) 1
      { Q := some (Query.NewExistsQuery "k"), Field := "k", RangeOp := RangeOp.NoOp,
        Negate := false } (by decide) (by decide)⟩

/-! ## Integers are not dates -/

theorem isSep_not_isDigit (c : Char) (h : isSep c = true) : isDigit c = false := by
  simp only [isSep, Bool.or_eq_true, beq_iff_eq] at h
  rcases h with (rfl | rfl) | rfl <;> decide

theorem digitsValue_all_digits :
    ∀ (cs : List Char) (acc n : Nat), digitsValue acc cs = some n →
      ∀ c ∈ cs, isDigit c = true := by
  intro cs
  induction cs with
  | nil => intro _ _ _ c hc; simp at hc
  | cons d ds ih =>
      intro acc n h c hc
      simp only [digitsValue] at h
      split_ifs at h with hd
      rcases List.mem_cons.mp hc with rfl | hc
      · exact hd
      · exact ih _ _ h c hc

theorem parseDigits_all_digits (cs : List Char) (n : Nat) (h : parseDigits cs = some n) :
    ∀ c ∈ cs, isDigit c = true := by
  cases cs with
  | nil => simp [parseDigits] at h
  | cons d ds => exact digitsValue_all_digits (d :: ds) 0 n h

theorem matchAt_false_of_digits (x : Char) (cs : List Char)
    (h : ∀ c ∈ cs, isDigit c = true) : SimpleDate.matchAt (x :: cs) = false := by
  match cs, h with
  | d2 :: d3 :: d4 :: s1 :: m1 :: m2 :: s2 :: e1 :: e2 :: _, h =>
      have hs : isDigit s1 = true := h s1 (by simp)
      have hn : isSep s1 = false := by
        cases hsep : isSep s1 with
        | false => rfl
        | true => rw [isSep_not_isDigit s1 hsep] at hs; exact absurd hs (by simp)
      simp [SimpleDate.matchAt, hn]
  | [], _ => rfl
  | [_], _ => rfl
  | [_, _], _ => rfl
  | [_, _, _], _ => rfl
  | [_, _, _, _], _ => rfl
  | [_, _, _, _, _], _ => rfl
  | [_, _, _, _, _, _], _ => rfl
  | [_, _, _, _, _, _, _], _ => rfl
  | [_, _, _, _, _, _, _, _], _ => rfl

theorem search_false_of_digits :
    ∀ (cs : List Char) (x : Char), (∀ c ∈ cs, isDigit c = true) →
      SimpleDate.search (x :: cs) = false := by
  intro cs
  induction cs with
  | nil => intro x _; simp [SimpleDate.search, matchAt_false_of_digits]
  | cons d ds ih =>
      intro x h
      have h1 := matchAt_false_of_digits x (d :: ds) h
      have h2 := ih d (fun c hc => h c (by simp [hc]))
      simp only [SimpleDate.search] at h2 ⊢
      rw [h1, h2]
      rfl

/-- A text that `Atoi` accepts holds no match of the date pattern. -/
theorem Atoi_not_date (t : String) (n : Int) (h : Atoi t = some n) :
    SimpleDate.MatchString t = false := by
  unfold Atoi at h
  unfold SimpleDate.MatchString
  cases hl : t.toList with
  | nil => rw [hl] at h; simp at h
  | cons c cs =>
      rw [hl] at h
      simp only at h
      apply search_false_of_digits
      by_cases hm : c = '-'
      · rw [if_pos hm] at h
        cases hp : parseDigits cs with
        | none => rw [hp] at h; simp at h
        | some k => exact parseDigits_all_digits cs k hp
      · rw [if_neg hm] at h
        by_cases hplus : c = '+'
        · rw [if_pos hplus] at h
          cases hp : parseDigits cs with
          | none => rw [hp] at h; simp at h
          | some k => exact parseDigits_all_digits cs k hp
        · rw [if_neg hplus] at h
          cases hp : parseDigits (c :: cs) with
          | none => rw [hp] at h; simp at h
          | some k =>
              intro d hd
              exact parseDigits_all_digits (c :: cs) k hp d (by simp [hd])

theorem rangeValue_of_Atoi (t : String) (n : Int) (h : Atoi t = some n) :
    rangeValue t = some (Lit.int n) := by
  simp [rangeValue, Atoi_not_date t n h, h]

/-! ## Leaf coercion -/

/-- On an empty stack, under a sentinel and under a finalized node, `current`
hands out a fresh value and leaves the stack alone. -/
theorem current_fresh (vs : ValueStack)
    (htop : vs.stack = [] ∨ (∃ s, vs.stack = s ++ [ValueRef.groupInit]) ∨
      (∃ s v, vs.stack = s ++ [ValueRef.cell v] ∧ v.Q ≠ none)) :
    current vs = (NewValue false, vs) := by
  cases vs with
  | mk st =>
    simp only at htop
    rcases htop with h | ⟨s, h⟩ | ⟨s, v, h, hv⟩
    · subst h; rfl
    · subst h; exact current_groupInit s
    · subst h; exact current_finalized s v hv

/-- C4: range dispatch inside a range.  From a stack whose top is not reusable
(empty, a sentinel on top, or a finalized node on top), for every field `f`,
each of the four comparison tokens and every text `t` that `Atoi` reads as the
integer `n`, the calls `SetField f; SetRangeOp tok; RangeOrNumber t` succeed
and leave the stack with exactly one new node on top: field `f`, the range
operator of the token, not negated, and as query the range over `f` with the
bound `n` applied by the method of the token (`Gt`, `Lt`, `Gte`, `Lte`). -/
theorem C4_range_dispatch_in_range (vs : ValueStack) (f t : String) (n : Int)
    (htop : vs.stack = [] ∨ (∃ s, vs.stack = s ++ [ValueRef.groupInit]) ∨
      (∃ s v, vs.stack = s ++ [ValueRef.cell v] ∧ v.Q ≠ none))
    (ht : Atoi t = some n) :
    (SetRangeOp ">" (SetField f vs)).bind (RangeOrNumber t) =
      some { stack := vs.stack ++
        [ValueRef.cell { Q := some (Query.range ((NewRangeQuery f).Gt (Lit.int n))),
                         Field := f, RangeOp := RangeOp.GreaterThan, Negate := false }] } ∧
    (SetRangeOp "<" (SetField f vs)).bind (RangeOrNumber t) =
      some { stack := vs.stack ++
        [ValueRef.cell { Q := some (Query.range ((NewRangeQuery f).Lt (Lit.int n))),
                         Field := f, RangeOp := RangeOp.LessThan, Negate := false }] } ∧
    (SetRangeOp ">=" (SetField f vs)).bind (RangeOrNumber t) =
      some { stack := vs.stack ++
        [ValueRef.cell { Q := some (Query.range ((NewRangeQuery f).Gte (Lit.int n))),
                         Field := f, RangeOp := RangeOp.GreaterThanEqual, Negate := false }] } ∧
    (SetRangeOp "<=" (SetField f vs)).bind (RangeOrNumber t) =
      some { stack := vs.stack ++
        [ValueRef.cell { Q := some (Query.range ((NewRangeQuery f).Lte (Lit.int n))),
                         Field := f, RangeOp := RangeOp.LessThanEqual, Negate := false }] } := by
  have hc := current_fresh vs htop
  have hv := rangeValue_of_Atoi t n ht
  have hf : SetField f vs = { stack := vs.stack ++
      [ValueRef.cell { Q := none, Field := f, RangeOp := RangeOp.NoOp, Negate := false }] } := by
    simp [SetField, hc, Push, NewValue, NoQuery]
  rw [hf]
  refine ⟨?_, ?_, ?_, ?_⟩ <;>
    simp [SetRangeOp, RangeOrNumber, noRangeInProgress, Range, hv, Push, current, NoQuery,
      ValueRef.deref]

/-- C4 at the input of the specification: `SetField "age"; SetRangeOp ">";
RangeOrNumber "5"` on the empty stack gives the range `age > 5`. -/
theorem C4_range_dispatch_in_range_witness :
    (SetRangeOp ">" (SetField "age" { stack := [] })).bind (RangeOrNumber "5") =
      some { stack := [] ++
        [ValueRef.cell { Q := some (Query.range ((NewRangeQuery "age").Gt (Lit.int 5))),
                         Field := "age", RangeOp := RangeOp.GreaterThan, Negate := false }] } :=
  (C4_range_dispatch_in_range { stack := [] } "age" "5" 5 (Or.inl rfl) (by decide)).1

/-- C5: evaluation of the standalone case.  `RangeOrNumber "5"` on the empty
stack and on a stack with a sentinel on top succeeds and pushes one node with
the integer term query `5`, but the field of the node and of the query is the
unset marker `NoField`, which is not `"_all"`; `Term "5"` on the same stacks
does use `"_all"`. -/
theorem C5_RangeOrNumber_standalone_keeps_NoField :
    RangeOrNumber "5" { stack := [] } =
      some { stack :=
        [ValueRef.cell { Q := some (Query.NewTermQuery NoField (Lit.int 5)),
                         Field := NoField, RangeOp := RangeOp.NoOp, Negate := false }] } ∧
    RangeOrNumber "5" { stack := [GroupInit] } =
      some { stack :=
        [GroupInit,
         ValueRef.cell { Q := some (Query.NewTermQuery NoField (Lit.int 5)),
                         Field := NoField, RangeOp := RangeOp.NoOp, Negate := false }] } ∧
    NoField ≠ "_all" ∧
    Term "5" { stack := [] } =
      { stack :=
        [ValueRef.cell { Q := some (Query.NewTermQuery "_all" (Lit.str "5")),
                         Field := "_all", RangeOp := RangeOp.NoOp, Negate := false }] } := by
  decide

/-- C6: default field.  Let `tmp` be the value `current` hands out.  When its
field is the unset marker, `Term t`, `Match t` and `Phrase t` push it back with
field `"_all"` and the term / match / phrase query over `"_all"` with value
`t`; otherwise they push it back with its own field and the query over that
field.  The range operator and the negation flag are those of `tmp` in both
cases, and `"_all"` is not the unset marker.  In particular, on a fresh
value (stack empty, sentinel on top or finalized node on top) one node over
`"_all"` is appended to the unchanged stack, after `SetNegation` alone the node is finalized over `"_all"` and stays negated, and
after `SetField f` with `f` not the unset marker it is finalized over `f`. -/
theorem C6_default_field (vs : ValueStack) (t f : String) (hf : f ≠ NoField) :
    ((current vs).1.Field = NoField →
      Term t vs = (current vs).2.Push (ValueRef.cell
        { Q := some (Query.NewTermQuery "_all" (Lit.str t)), Field := "_all",
          RangeOp := (current vs).1.RangeOp, Negate := (current vs).1.Negate }) ∧
      Match t vs = (current vs).2.Push (ValueRef.cell
        { Q := some (Query.NewMatchQuery "_all" t), Field := "_all",
          RangeOp := (current vs).1.RangeOp, Negate := (current vs).1.Negate }) ∧
      Phrase t vs = (current vs).2.Push (ValueRef.cell
        { Q := some (Query.NewMatchPhraseQuery "_all" t), Field := "_all",
          RangeOp := (current vs).1.RangeOp, Negate := (current vs).1.Negate })) ∧
    ((current vs).1.Field ≠ NoField →
      Term t vs = (current vs).2.Push (ValueRef.cell
        { Q := some (Query.NewTermQuery (current vs).1.Field (Lit.str t)),
          Field := (current vs).1.Field,
          RangeOp := (current vs).1.RangeOp, Negate := (current vs).1.Negate }) ∧
      Match t vs = (current vs).2.Push (ValueRef.cell
        { Q := some (Query.NewMatchQuery (current vs).1.Field t),
          Field := (current vs).1.Field,
          RangeOp := (current vs).1.RangeOp, Negate := (current vs).1.Negate }) ∧
      Phrase t vs = (current vs).2.Push (ValueRef.cell
        { Q := some (Query.NewMatchPhraseQuery (current vs).1.Field t),
          Field := (current vs).1.Field,
          RangeOp := (current vs).1.RangeOp, Negate := (current vs).1.Negate })) ∧
    "_all" ≠ NoField ∧
    ((vs.stack = [] ∨ (∃ s, vs.stack = s ++ [ValueRef.groupInit]) ∨
        (∃ s v, vs.stack = s ++ [ValueRef.cell v] ∧ v.Q ≠ none)) →
      Term t vs = { stack := vs.stack ++ [ValueRef.cell
        { Q := some (Query.NewTermQuery "_all" (Lit.str t)), Field := "_all",
          RangeOp := RangeOp.NoOp, Negate := false }] } ∧
      Match t vs = { stack := vs.stack ++ [ValueRef.cell
        { Q := some (Query.NewMatchQuery "_all" t), Field := "_all",
          RangeOp := RangeOp.NoOp, Negate := false }] } ∧
      Phrase t vs = { stack := vs.stack ++ [ValueRef.cell
        { Q := some (Query.NewMatchPhraseQuery "_all" t), Field := "_all",
          RangeOp := RangeOp.NoOp, Negate := false }] }) ∧
    (Term t (SetNegation vs) = { stack := vs.stack ++ [ValueRef.cell
        { Q := some (Query.NewTermQuery "_all" (Lit.str t)), Field := "_all",
          RangeOp := RangeOp.NoOp, Negate := true }] } ∧
      Match t (SetNegation vs) = { stack := vs.stack ++ [ValueRef.cell
        { Q := some (Query.NewMatchQuery "_all" t), Field := "_all",
          RangeOp := RangeOp.NoOp, Negate := true }] } ∧
      Phrase t (SetNegation vs) = { stack := vs.stack ++ [ValueRef.cell
        { Q := some (Query.NewMatchPhraseQuery "_all" t), Field := "_all",
          RangeOp := RangeOp.NoOp, Negate := true }] }) ∧
    (Term t (SetField f vs) = (current vs).2.Push (ValueRef.cell
        { Q := some (Query.NewTermQuery f (Lit.str t)), Field := f,
          RangeOp := (current vs).1.RangeOp, Negate := (current vs).1.Negate }) ∧
      Match t (SetField f vs) = (current vs).2.Push (ValueRef.cell
        { Q := some (Query.NewMatchQuery f t), Field := f,
          RangeOp := (current vs).1.RangeOp, Negate := (current vs).1.Negate }) ∧
      Phrase t (SetField f vs) = (current vs).2.Push (ValueRef.cell
        { Q := some (Query.NewMatchPhraseQuery f t), Field := f,
          RangeOp := (current vs).1.RangeOp, Negate := (current vs).1.Negate })) := by
  have hq : (current vs).1.Q = none := current_Q_none vs
  refine ⟨?_, ?_, by decide, ?_, ?_, ?_⟩
  · intro h
    simp [Term, Match, Phrase, defaultField, h]
  · intro h
    simp [Term, Match, Phrase, defaultField, h]
  · intro htop
    simp [Term, Match, Phrase, defaultField, current_fresh vs htop, NewValue, NoQuery, Push]
  · simp [Term, Match, Phrase, defaultField, SetNegation, Push, current, NewValue, NoQuery]
  · have hcur : current (SetField f vs) =
        ({ (current vs).1 with Field := f }, (current vs).2) := by
      have h := current_inProgress (current vs).2.stack { (current vs).1 with Field := f } hq
      simpa [SetField, Push] using h
    simp [Term, Match, Phrase, defaultField, hcur, hf]

/-- C6 at concrete stacks: `Term "hello"` on the empty stack (no field set),
on a stack whose top is an unfinished node with field `status`, and after
`SetField "status"` on the empty stack. -/
theorem C6_default_field_witness :
    Term "hello" { stack := [] } = (current { stack := [] }).2.Push (ValueRef.cell
        { Q := some (Query.NewTermQuery "_all" (Lit.str "hello")), Field := "_all",
          RangeOp := (current { stack := [] }).1.RangeOp,
          Negate := (current { stack := [] }).1.Negate }) ∧
    Term "hello" { stack := [ValueRef.cell (Value.mk none "status" RangeOp.NoOp true)] } =
      (current { stack := [ValueRef.cell (Value.mk none "status" RangeOp.NoOp true)] }).2.Push
        (ValueRef.cell
          { Q := some (Query.NewTermQuery
              (current
                { stack := [ValueRef.cell (Value.mk none "status" RangeOp.NoOp true)] }).1.Field
              (Lit.str "hello")),
            Field := (current
                { stack := [ValueRef.cell (Value.mk none "status" RangeOp.NoOp true)] }).1.Field,
            RangeOp := (current
                { stack := [ValueRef.cell (Value.mk none "status" RangeOp.NoOp true)] }).1.RangeOp,
            Negate := (current
                { stack := [ValueRef.cell (Value.mk none "status" RangeOp.NoOp true)] }).1.Negate }) ∧
    Term "hello" (SetField "status" { stack := [] }) =
      (current { stack := [] }).2.Push (ValueRef.cell
        { Q := some (Query.NewTermQuery "status" (Lit.str "hello")), Field := "status",
          RangeOp := (current { stack := [] }).1.RangeOp,
          Negate := (current { stack := [] }).1.Negate }) ∧
    Term "hello" { stack := [] } = { stack := [] ++ [ValueRef.cell
        { Q := some (Query.NewTermQuery "_all" (Lit.str "hello")), Field := "_all",
          RangeOp := RangeOp.NoOp, Negate := false }] } :=
  ⟨((C6_default_field { stack := [] } "hello" "status" (by decide)).1 (by decide)).1,
   ((C6_default_field { stack := [ValueRef.cell (Value.mk none "status" RangeOp.NoOp true)] }
      "hello" "status" (by decide)).2.1 (by decide)).1,
   (C6_default_field { stack := [] } "hello" "status" (by decide)).2.2.2.2.2.1,
   ((C6_default_field { stack := [] } "hello" "status" (by decide)).2.2.2.1 (Or.inl rfl)).1⟩

/-! ## Dates -/

/-- The operation `Date` succeeds exactly when the text contains a match of the pattern, and
then does what `Term` does. -/
theorem Date_eq_some_iff (t : String) (vs : ValueStack) :
    (Date t vs = some (Term t vs) ↔ SimpleDate.MatchString t = true) ∧
      (Date t vs = none ↔ SimpleDate.MatchString t = false) := by
  unfold Date
  cases h : SimpleDate.MatchString t <;> simp

/-- A text that has the date shape as a whole is accepted by `Date`. -/
theorem Date_accepts_specDateShape (t : String) (vs : ValueStack)
    (h : specDateShape t = true) : Date t vs = some (Term t vs) := by
  apply (Date_eq_some_iff t vs).1.mpr
  unfold specDateShape at h
  unfold SimpleDate.MatchString
  simp only [Bool.and_eq_true, decide_eq_true_eq] at h
  cases hl : t.toList with
  | nil => rw [hl] at h; simp at h
  | cons c cs =>
      rw [hl] at h
      simp [SimpleDate.search, h.2]

/-- C7: evaluation of the shape check.  `Date` accepts a text that has the
date shape as a whole and rejects `"2020-1-5"`, but it also accepts
`"x2020-01-15y"` and `"12020-01-150"`, which only CONTAIN a date-shaped
fragment and do not have the date shape themselves: the pattern is searched
for, not matched against the whole text. -/
theorem C7_Date_accepts_text_around_a_date :
    specDateShape "2020-01-15" = true ∧
    (Date "2020-01-15" { stack := [] }).isSome = true ∧
    specDateShape "2020-1-5" = false ∧
    Date "2020-1-5" { stack := [] } = none ∧
    specDateShape "x2020-01-15y" = false ∧
    Date "x2020-01-15y" { stack := [] } = some (Term "x2020-01-15y" { stack := [] }) ∧
    specDateShape "12020-01-150" = false ∧
    Date "12020-01-150" { stack := [] } = some (Term "12020-01-150" { stack := [] }) := by
  decide

/-! ## Fatal paths of the range operations -/

/-- C8: `SetRangeOp tok` is fatal exactly when `tok` is none of `">="`, `"<="`,
`">"`, `"<"` (so `"!="` is fatal).  On each of the four tokens it succeeds and
pushes back the value `current` handed out with the range operator of the
token (`GreaterThanEqual`, `LessThanEqual`, `GreaterThan`, `LessThan`), its
field and negation flag as they were and its query still absent. -/
theorem C8_SetRangeOp_token_table (vs : ValueStack) (tok : String) :
    (SetRangeOp tok vs = none ↔ (tok ≠ ">=" ∧ tok ≠ "<=" ∧ tok ≠ ">" ∧ tok ≠ "<")) ∧
    SetRangeOp "!=" vs = none ∧
    (current vs).1.Q = none ∧
    SetRangeOp ">=" vs = some ((current vs).2.Push (ValueRef.cell
      { Q := none, Field := (current vs).1.Field, RangeOp := RangeOp.GreaterThanEqual,
        Negate := (current vs).1.Negate })) ∧
    SetRangeOp "<=" vs = some ((current vs).2.Push (ValueRef.cell
      { Q := none, Field := (current vs).1.Field, RangeOp := RangeOp.LessThanEqual,
        Negate := (current vs).1.Negate })) ∧
    SetRangeOp ">" vs = some ((current vs).2.Push (ValueRef.cell
      { Q := none, Field := (current vs).1.Field, RangeOp := RangeOp.GreaterThan,
        Negate := (current vs).1.Negate })) ∧
    SetRangeOp "<" vs = some ((current vs).2.Push (ValueRef.cell
      { Q := none, Field := (current vs).1.Field, RangeOp := RangeOp.LessThan,
        Negate := (current vs).1.Negate })) := by
  have hq : (current vs).1.Q = none := current_Q_none vs
  refine ⟨?_, ?_, hq, ?_, ?_, ?_, ?_⟩
  · unfold SetRangeOp
    constructor
    · intro h
      split_ifs at h with h1 h2 h3 h4
      exact ⟨h1, h2, h3, h4⟩
    · rintro ⟨h1, h2, h3, h4⟩
      simp [h1, h2, h3, h4]
  · simp [SetRangeOp]
  · simp [SetRangeOp, ← hq]
  · simp [SetRangeOp, ← hq]
  · simp [SetRangeOp, ← hq]
  · simp [SetRangeOp, ← hq]

/-- The typed bound of `Range`, case by case. -/
theorem rangeValue_cases (t : String) (v : Lit)
    (hv : (SimpleDate.MatchString t = true ∧ v = Lit.str t) ∨
      (SimpleDate.MatchString t = false ∧ ∃ n, Atoi t = some n ∧ v = Lit.int n)) :
    rangeValue t = some v := by
  rcases hv with ⟨hd, rfl⟩ | ⟨hd, n, hn, rfl⟩
  · simp [rangeValue, hd]
  · simp [rangeValue, hd, hn]

theorem rangeValue_eq_none_iff (t : String) :
    rangeValue t = none ↔ (SimpleDate.MatchString t = false ∧ Atoi t = none) := by
  unfold rangeValue
  cases hd : SimpleDate.MatchString t <;> cases hn : Atoi t <;> simp

/-- The fatal paths of `Range` in terms of the pattern test it makes:
`Range t` is fatal exactly when the range operator of the value `current`
hands out is `NoOp`, or `t` neither holds a match of the date pattern nor is
read by `Atoi`; a fresh value (top not reusable) is such a `NoOp` case.  In
every other case `Range t` succeeds and pushes that value back with its field,
range operator and negation flag as they were and, as query, the range over
its field with the typed bound (the text `t` when the date pattern matches,
else the integer of `t`) applied by the method of the stored operator. -/
theorem Range_fatal_iff (vs : ValueStack) (t : String) :
    (Range t vs = none ↔
      ((current vs).1.RangeOp = RangeOp.NoOp ∨
        (SimpleDate.MatchString t = false ∧ Atoi t = none))) ∧
    ((vs.stack = [] ∨ (∃ s, vs.stack = s ++ [ValueRef.groupInit]) ∨
        (∃ s v, vs.stack = s ++ [ValueRef.cell v] ∧ v.Q ≠ none)) → Range t vs = none) ∧
    (∀ v : Lit,
      ((SimpleDate.MatchString t = true ∧ v = Lit.str t) ∨
        (SimpleDate.MatchString t = false ∧ ∃ n, Atoi t = some n ∧ v = Lit.int n)) →
      ((current vs).1.RangeOp = RangeOp.LessThan →
        Range t vs = some ((current vs).2.Push (ValueRef.cell
          { Q := some (Query.range ((NewRangeQuery (current vs).1.Field).Lt v)),
            Field := (current vs).1.Field, RangeOp := RangeOp.LessThan,
            Negate := (current vs).1.Negate }))) ∧
      ((current vs).1.RangeOp = RangeOp.LessThanEqual →
        Range t vs = some ((current vs).2.Push (ValueRef.cell
          { Q := some (Query.range ((NewRangeQuery (current vs).1.Field).Lte v)),
            Field := (current vs).1.Field, RangeOp := RangeOp.LessThanEqual,
            Negate := (current vs).1.Negate }))) ∧
      ((current vs).1.RangeOp = RangeOp.GreaterThan →
        Range t vs = some ((current vs).2.Push (ValueRef.cell
          { Q := some (Query.range ((NewRangeQuery (current vs).1.Field).Gt v)),
            Field := (current vs).1.Field, RangeOp := RangeOp.GreaterThan,
            Negate := (current vs).1.Negate }))) ∧
      ((current vs).1.RangeOp = RangeOp.GreaterThanEqual →
        Range t vs = some ((current vs).2.Push (ValueRef.cell
          { Q := some (Query.range ((NewRangeQuery (current vs).1.Field).Gte v)),
            Field := (current vs).1.Field, RangeOp := RangeOp.GreaterThanEqual,
            Negate := (current vs).1.Negate })))) := by
  refine ⟨?_, ?_, ?_⟩
  · rw [← rangeValue_eq_none_iff]
    unfold Range
    cases hv : rangeValue t with
    | none => simp
    | some v => cases hop : (current vs).1.RangeOp <;> simp [hop]
  · intro htop
    have hc := current_fresh vs htop
    unfold Range
    cases hv : rangeValue t with
    | none => rfl
    | some v => simp [hc, NewValue]
  · intro v hv
    have hr := rangeValue_cases t v hv
    refine ⟨?_, ?_, ?_, ?_⟩ <;>
      · intro hop
        simp [Range, hr, hop]

/-- The fatal paths of `Range` at concrete inputs: an unfinished node `age >`
on top with the text `"5"`, and the empty stack. -/
theorem Range_fatal_iff_example :
    Range "5" { stack := [ValueRef.cell (Value.mk none "age" RangeOp.GreaterThan false)] } =
      some ((current
          { stack := [ValueRef.cell (Value.mk none "age" RangeOp.GreaterThan false)] }).2.Push
        (ValueRef.cell
          { Q := some (Query.range ((NewRangeQuery (current
              { stack := [ValueRef.cell (Value.mk none "age" RangeOp.GreaterThan false)]
                }).1.Field).Gt (Lit.int 5))),
            Field := (current
              { stack := [ValueRef.cell (Value.mk none "age" RangeOp.GreaterThan false)]
                }).1.Field,
            RangeOp := RangeOp.GreaterThan,
            Negate := (current
              { stack := [ValueRef.cell (Value.mk none "age" RangeOp.GreaterThan false)]
                }).1.Negate })) ∧
    Range "5" { stack := [] } = none :=
  ⟨((Range_fatal_iff
      { stack := [ValueRef.cell (Value.mk none "age" RangeOp.GreaterThan false)] }
      "5").2.2 (Lit.int 5) (Or.inr ⟨by decide, 5, by decide, rfl⟩)).2.2.1 (by decide),
   (Range_fatal_iff { stack := [] } "5").2.1 (Or.inl rfl)⟩

/-- C9: evaluation at a text that is neither date-shaped nor an integer.
The text `"x2020-01-15y"` does not have the date shape and `Atoi` does not
read it, and the node on top after `SetField "age"; SetRangeOp ">="` has a
range operator; yet `Range "x2020-01-15y"` is not fatal: it finalizes the node
with the range `age >= "x2020-01-15y"`, because the date pattern is searched
for inside the text.  The texts `"abc"` (nothing date-like in it) and
`"2020-1-5"` are fatal, and `"2020-01-15"` and `"5"` are accepted, as
claimed. -/
theorem C9_Range_accepts_text_around_a_date :
    specDateShape "x2020-01-15y" = false ∧
    Atoi "x2020-01-15y" = none ∧
    SetRangeOp ">=" (SetField "age" Init) =
      some { stack := [ValueRef.cell
        (Value.mk none "age" RangeOp.GreaterThanEqual false)] } ∧
    Range "x2020-01-15y" { stack := [ValueRef.cell
        (Value.mk none "age" RangeOp.GreaterThanEqual false)] } =
      some { stack := [ValueRef.cell
        (Value.mk (some (Query.range ((NewRangeQuery "age").Gte (Lit.str "x2020-01-15y"))))
          "age" RangeOp.GreaterThanEqual false)] } ∧
    Range "abc" { stack := [ValueRef.cell
        (Value.mk none "age" RangeOp.GreaterThanEqual false)] } = none ∧
    Range "2020-1-5" { stack := [ValueRef.cell
        (Value.mk none "age" RangeOp.GreaterThanEqual false)] } = none ∧
    Range "2020-01-15" { stack := [ValueRef.cell
        (Value.mk none "age" RangeOp.GreaterThanEqual false)] } =
      some { stack := [ValueRef.cell
        (Value.mk (some (Query.range ((NewRangeQuery "age").Gte (Lit.str "2020-01-15"))))
          "age" RangeOp.GreaterThanEqual false)] } ∧
    Range "5" { stack := [ValueRef.cell
        (Value.mk none "age" RangeOp.GreaterThanEqual false)] } =
      some { stack := [ValueRef.cell
        (Value.mk (some (Query.range ((NewRangeQuery "age").Gte (Lit.int 5))))
          "age" RangeOp.GreaterThanEqual false)] } := by
  decide

/-! ## The sentinel and the marker text -/

/-- C10: evaluation at a field that is the marker text.  After `StartGroup;
SetField "a"; Term "x"; SetField "__GROUP_INIT__"; Term "y"` the stack holds the
sentinel and two finalized real nodes, yet `PopGroup` returns no node at all
and leaves the sentinel and the node `a` on the stack: it stops at the real
node whose field text equals the marker text.  With the marker text on the
first node instead, it returns one node and leaves the sentinel.  `current`,
which compares with the sentinel itself, treats the same real node as a node:
a `SetField` after it starts a new node above it. -/
theorem C10_PopGroup_stops_at_marker_text :
    Term "y" (SetField "__GROUP_INIT__" (Term "x" (SetField "a" (StartGroup { stack := [] })))) =
      { stack :=
        [GroupInit,
         ValueRef.cell (Value.mk (some (Query.NewTermQuery "a" (Lit.str "x"))) "a"
           RangeOp.NoOp false),
         ValueRef.cell (Value.mk (some (Query.NewTermQuery "__GROUP_INIT__" (Lit.str "y")))
           "__GROUP_INIT__" RangeOp.NoOp false)] } ∧
    PopGroup (Term "y" (SetField "__GROUP_INIT__" (Term "x" (SetField "a"
        (StartGroup { stack := [] }))))) =
      ([],
       { stack :=
        [GroupInit,
         ValueRef.cell (Value.mk (some (Query.NewTermQuery "a" (Lit.str "x"))) "a"
           RangeOp.NoOp false)] }) ∧
    PopGroup (Term "y" (SetField "b" (Term "x" (SetField "__GROUP_INIT__"
        (StartGroup { stack := [] }))))) =
      ([ValueRef.cell (Value.mk (some (Query.NewTermQuery "b" (Lit.str "y"))) "b"
           RangeOp.NoOp false)],
       { stack := [GroupInit] }) ∧
    (current { stack := [GroupInit,
        ValueRef.cell (Value.mk none "__GROUP_INIT__" RangeOp.NoOp false)] }).2 =
      { stack := [GroupInit] } := by
  decide

/-! ## Stack balance -/

theorem pushAll_stack (vals : List ValueRef) :
    ∀ vs : ValueStack, (pushAll vs vals).stack = vs.stack ++ vals := by
  induction vals with
  | nil => intro vs; simp [pushAll]
  | cons v rest ih => intro vs; simp [pushAll, ih, Push]

theorem popN_append (vals : List ValueRef) :
    ∀ base : List ValueRef,
      popN vals.length { stack := base ++ vals } =
        (vals.reverse.map some, { stack := base }) := by
  induction vals using List.reverseRecOn with
  | nil => intro base; simp [popN]
  | append_singleton l p ih =>
      intro base
      have hlen : (l ++ [p]).length = l.length + 1 := by simp
      rw [hlen, ← List.append_assoc]
      simp only [popN, Pop_append]
      rw [ih base]
      simp

/-- C11: stack balance.  For every sequence `vals` of `N` elements, after
`Init()` and the pushes of `vals` in order, `N` calls of `Pop()` return the
elements in exact reverse push order and leave the stack as `Init()` made it;
`Empty()` is then true, and one further `Pop()` returns the nil result and
leaves the stack empty. -/
theorem C11_stack_balance (vals : List ValueRef) :
    popN vals.length (pushAll Init vals) = (vals.reverse.map some, Init) ∧
    ValueStack.Empty (popN vals.length (pushAll Init vals)).2 = true ∧
    Pop (popN vals.length (pushAll Init vals)).2 = (none, Init) := by
  have hst : pushAll Init vals = { stack := [] ++ vals } := by
    have h := pushAll_stack vals Init
    cases hp : pushAll Init vals with
    | mk st => rw [hp] at h; simp [Init] at h; simp [h]
  have h := popN_append vals []
  rw [hst, h]
  exact ⟨rfl, rfl, rfl⟩

/-! ## Dates inside and outside a range -/

/-- A text that holds a match of the date pattern is not read by `Atoi`. -/
theorem date_not_Atoi (t : String) (hd : SimpleDate.MatchString t = true) : Atoi t = none := by
  cases h : Atoi t with
  | none => rfl
  | some n => rw [Atoi_not_date t n h] at hd; exact absurd hd (by simp)

/-- C12: date detection inside a range.  On every stack whose top is an
unfinished node with a range operator other than `NoOp`, and for every text
`t` that matches the date pattern, `RangeOrDate t` succeeds and puts that node
back finalized, with its field, operator and negation flag as they were and,
as query, the range over its field whose bound is the text `t` itself, applied
by the method of the operator.  No integer reading of `t` takes part (there is
none: `Atoi t` fails).  In particular `SetField f; SetRangeOp ">";
RangeOrDate t` on any stack ends with the range `f > t` on the node that
`current` handed to `SetField`. -/
theorem C12_date_inside_range (s : List ValueRef) (v : Value) (t : String)
    (hq : v.Q = none) (hop : v.RangeOp ≠ RangeOp.NoOp)
    (hd : SimpleDate.MatchString t = true) :
    (RangeOrDate t { stack := s ++ [ValueRef.cell v] }).isSome = true ∧
    Atoi t = none ∧
    (v.RangeOp = RangeOp.LessThan →
      RangeOrDate t { stack := s ++ [ValueRef.cell v] } = some { stack := s ++ [ValueRef.cell
        { Q := some (Query.range ((NewRangeQuery v.Field).Lt (Lit.str t))), Field := v.Field,
          RangeOp := RangeOp.LessThan, Negate := v.Negate }] }) ∧
    (v.RangeOp = RangeOp.LessThanEqual →
      RangeOrDate t { stack := s ++ [ValueRef.cell v] } = some { stack := s ++ [ValueRef.cell
        { Q := some (Query.range ((NewRangeQuery v.Field).Lte (Lit.str t))), Field := v.Field,
          RangeOp := RangeOp.LessThanEqual, Negate := v.Negate }] }) ∧
    (v.RangeOp = RangeOp.GreaterThan →
      RangeOrDate t { stack := s ++ [ValueRef.cell v] } = some { stack := s ++ [ValueRef.cell
        { Q := some (Query.range ((NewRangeQuery v.Field).Gt (Lit.str t))), Field := v.Field,
          RangeOp := RangeOp.GreaterThan, Negate := v.Negate }] }) ∧
    (v.RangeOp = RangeOp.GreaterThanEqual →
      RangeOrDate t { stack := s ++ [ValueRef.cell v] } = some { stack := s ++ [ValueRef.cell
        { Q := some (Query.range ((NewRangeQuery v.Field).Gte (Lit.str t))), Field := v.Field,
          RangeOp := RangeOp.GreaterThanEqual, Negate := v.Negate }] }) ∧
    (∀ (vs : ValueStack) (f : String),
      (SetRangeOp ">" (SetField f vs)).bind (RangeOrDate t) =
        some ((current vs).2.Push (ValueRef.cell
          { Q := some (Query.range ((NewRangeQuery f).Gt (Lit.str t))), Field := f,
            RangeOp := RangeOp.GreaterThan, Negate := (current vs).1.Negate }))) := by
  have hc := current_inProgress s v hq
  have hr : rangeValue t = some (Lit.str t) := by simp [rangeValue, hd]
  have hdisp : noRangeInProgress { stack := s ++ [ValueRef.cell v] } = false := by
    simp [noRangeInProgress, ValueRef.deref, hop]
  refine ⟨?_, date_not_Atoi t hd, ?_, ?_, ?_, ?_, ?_⟩
  · cases hv : v.RangeOp <;>
      first
      | exact absurd hv hop
      | simp [RangeOrDate, hdisp, Range, hc, hr, hv]
  · intro hv; simp [RangeOrDate, hdisp, Range, hc, hr, hv, Push]
  · intro hv; simp [RangeOrDate, hdisp, Range, hc, hr, hv, Push]
  · intro hv; simp [RangeOrDate, hdisp, Range, hc, hr, hv, Push]
  · intro hv; simp [RangeOrDate, hdisp, Range, hc, hr, hv, Push]
  · intro vs f
    have hq0 : (current vs).1.Q = none := current_Q_none vs
    have h1 : SetRangeOp ">" (SetField f vs) = some { stack := (current vs).2.stack ++
        [ValueRef.cell { Q := none, Field := f, RangeOp := RangeOp.GreaterThan,
                         Negate := (current vs).1.Negate }] } := by
      have hset : SetField f vs = { stack := (current vs).2.stack ++
          [ValueRef.cell { Q := none, Field := f, RangeOp := (current vs).1.RangeOp,
                           Negate := (current vs).1.Negate }] } := by
        simp [SetField, Push, hq0]
      have hcur := current_inProgress (current vs).2.stack
        { Q := none, Field := f, RangeOp := (current vs).1.RangeOp,
          Negate := (current vs).1.Negate } rfl
      rw [hset]
      simp [SetRangeOp, hcur, Push]
    rw [h1]
    have hcur2 := current_inProgress (current vs).2.stack
      { Q := none, Field := f, RangeOp := RangeOp.GreaterThan,
        Negate := (current vs).1.Negate } rfl
    simp [RangeOrDate, noRangeInProgress, ValueRef.deref, Range, hcur2, hr, Push]

/-- C12 at the input of the specification: an unfinished node `f >` on top of a
sentinel and the text `"2020-01-15"`. -/
theorem C12_date_inside_range_witness :
    RangeOrDate "2020-01-15"
        { stack := [ValueRef.groupInit] ++
            [ValueRef.cell (Value.mk none "f" RangeOp.GreaterThan false)] } =
      some { stack := [ValueRef.groupInit] ++ [ValueRef.cell
        { Q := some (Query.range ((NewRangeQuery
              (Value.mk none "f" RangeOp.GreaterThan false).Field).Gt (Lit.str "2020-01-15"))),
          Field := (Value.mk none "f" RangeOp.GreaterThan false).Field,
          RangeOp := RangeOp.GreaterThan,
          Negate := (Value.mk none "f" RangeOp.GreaterThan false).Negate }] } :=
  (C12_date_inside_range [ValueRef.groupInit] (Value.mk none "f" RangeOp.GreaterThan false)
    "2020-01-15" rfl (by decide) (by decide)).2.2.2.2.1 rfl

/-- C13: `Date` delegates to `Term`.  On every stack and for every text `t`
that passes the pattern test of `Date`, `Date t` succeeds with exactly the
stack `Term t` produces: the value `current` hands out is pushed back with
field `"_all"` when its field was the unset marker and with its own field
otherwise, and with the term query over that field whose value is the text
`t`, kept as a string. -/
theorem C13_Date_delegates_to_Term (vs : ValueStack) (t : String)
    (hd : SimpleDate.MatchString t = true) :
    Date t vs = some (Term t vs) ∧
    Term t vs = (current vs).2.Push (ValueRef.cell
      { Q := some (Query.NewTermQuery
          (if (current vs).1.Field = NoField then "_all" else (current vs).1.Field)
          (Lit.str t)),
        Field := if (current vs).1.Field = NoField then "_all" else (current vs).1.Field,
        RangeOp := (current vs).1.RangeOp,
        Negate := (current vs).1.Negate }) := by
  constructor
  · simp [Date, hd]
  · by_cases h : (current vs).1.Field = NoField <;> simp [Term, defaultField, h]

/-- C13 at a concrete input: `Date "2020-01-15"` on the empty stack. -/
theorem C13_Date_delegates_to_Term_witness :
    Date "2020-01-15" { stack := [] } = some (Term "2020-01-15" { stack := [] }) :=
  (C13_Date_delegates_to_Term { stack := [] } "2020-01-15" (by decide)).1

/-! ## Boolean and integer literals -/

/-- C14: `Boolean t` is fatal exactly when `t` is none of the twelve literals of
`ParseBool` (`"notabool"` is fatal).  On the six literals of truth it succeeds
and pushes back the value `current` handed out with the term query over its
field carrying `true`, on the six literals of falsity with the one carrying
`false`; the field, range operator and negation flag are as they were. -/
theorem C14_Boolean_fatal_iff (vs : ValueStack) (t : String) :
    (Boolean t vs = none ↔
      t ∉ ["1", "t", "T", "TRUE", "true", "True", "0", "f", "F", "FALSE", "false", "False"]) ∧
    Boolean "notabool" vs = none ∧
    (t ∈ ["1", "t", "T", "TRUE", "true", "True"] →
      Boolean t vs = some ((current vs).2.Push (ValueRef.cell
        { Q := some (Query.NewTermQuery (current vs).1.Field (Lit.bool true)),
          Field := (current vs).1.Field, RangeOp := (current vs).1.RangeOp,
          Negate := (current vs).1.Negate }))) ∧
    (t ∈ ["0", "f", "F", "FALSE", "false", "False"] →
      Boolean t vs = some ((current vs).2.Push (ValueRef.cell
        { Q := some (Query.NewTermQuery (current vs).1.Field (Lit.bool false)),
          Field := (current vs).1.Field, RangeOp := (current vs).1.RangeOp,
          Negate := (current vs).1.Negate }))) := by
  refine ⟨?_, ?_, ?_, ?_⟩
  · unfold Boolean ParseBool
    simp only [List.mem_cons, List.mem_singleton, List.mem_nil_iff, or_false, not_or]
    constructor
    · intro h
      split_ifs at h with h1 h2
      simp only [not_or] at h1 h2
      tauto
    · intro h
      have h1 : ¬ (t = "1" ∨ t = "t" ∨ t = "T" ∨ t = "TRUE" ∨ t = "true" ∨ t = "True") := by
        tauto
      have h2 : ¬ (t = "0" ∨ t = "f" ∨ t = "F" ∨ t = "FALSE" ∨ t = "false" ∨ t = "False") := by
        tauto
      simp [h1, h2]
  · simp [Boolean, ParseBool]
  · intro h
    simp only [List.mem_cons, List.mem_singleton, List.mem_nil_iff, or_false] at h
    have hp : ParseBool t = some true := by simp [ParseBool, h]
    simp [Boolean, hp]
  · intro h
    simp only [List.mem_cons, List.mem_singleton, List.mem_nil_iff, or_false] at h
    have hp : ParseBool t = some false := by
      unfold ParseBool
      rcases h with rfl | rfl | rfl | rfl | rfl | rfl <;> decide
    simp [Boolean, hp]

/-- C14 at concrete inputs: `Boolean "true"` and `Boolean "F"` on the empty
stack. -/
theorem C14_Boolean_fatal_iff_witness :
    Boolean "true" { stack := [] } = some ((current { stack := [] }).2.Push (ValueRef.cell
        { Q := some (Query.NewTermQuery (current { stack := [] }).1.Field (Lit.bool true)),
          Field := (current { stack := [] }).1.Field,
          RangeOp := (current { stack := [] }).1.RangeOp,
          Negate := (current { stack := [] }).1.Negate })) ∧
    Boolean "F" { stack := [] } = some ((current { stack := [] }).2.Push (ValueRef.cell
        { Q := some (Query.NewTermQuery (current { stack := [] }).1.Field (Lit.bool false)),
          Field := (current { stack := [] }).1.Field,
          RangeOp := (current { stack := [] }).1.RangeOp,
          Negate := (current { stack := [] }).1.Negate })) :=
  ⟨(C14_Boolean_fatal_iff { stack := [] } "true").2.2.1 (by decide),
   (C14_Boolean_fatal_iff { stack := [] } "F").2.2.2 (by decide)⟩

theorem digitsValue_of_digits :
    ∀ (cs : List Char) (acc : Nat), (∀ c ∈ cs, isDigit c = true) →
      ∃ n, digitsValue acc cs = some n := by
  intro cs
  induction cs with
  | nil => intro acc _; exact ⟨acc, rfl⟩
  | cons d ds ih =>
      intro acc h
      have hd : isDigit d = true := h d (by simp)
      obtain ⟨n, hn⟩ := ih (acc * 10 + (d.toNat - '0'.toNat)) (fun c hc => h c (by simp [hc]))
      exact ⟨n, by rw [digitsValue, if_pos hd]; exact hn⟩

/-- What `Atoi` accepts, in words: the text is an optional sign followed by one
or more decimal digits, and the signed decimal value lies within
`[-2^63, 2^63 - 1]`; the result is that value. -/
theorem Atoi_eq_some_iff (t : String) (i : Int) :
    Atoi t = some i ↔
      ∃ (sign ds : List Char) (n : Nat),
        t.toList = sign ++ ds ∧ (sign = [] ∨ sign = ['+'] ∨ sign = ['-']) ∧ ds ≠ [] ∧
        (∀ c ∈ ds, isDigit c = true) ∧ digitsValue 0 ds = some n ∧
        ((sign = ['-'] ∧ n ≤ 2 ^ 63 ∧ i = -(n : Int)) ∨
          (sign ≠ ['-'] ∧ n < 2 ^ 63 ∧ i = (n : Int))) := by
  constructor
  · intro h
    unfold Atoi at h
    cases hl : t.toList with
    | nil => rw [hl] at h; simp at h
    | cons c cs =>
        rw [hl] at h
        simp only at h
        by_cases hm : c = '-'
        · rw [if_pos hm] at h
          cases hp : parseDigits cs with
          | none => rw [hp] at h; simp at h
          | some n =>
              rw [hp] at h
              simp only at h
              split_ifs at h with hr
              have hne : cs ≠ [] := by
                intro hnil
                rw [hnil] at hp
                simp [parseDigits] at hp
              have hdv : digitsValue 0 cs = some n := by
                cases cs with
                | nil => exact absurd rfl hne
                | cons d ds => exact hp
              refine ⟨['-'], cs, n, by simp [hm], Or.inr (Or.inr rfl), hne,
                parseDigits_all_digits cs n hp, hdv, Or.inl ⟨rfl, hr, ?_⟩⟩
              exact (Option.some.inj h).symm
        · rw [if_neg hm] at h
          by_cases hplus : c = '+'
          · rw [if_pos hplus] at h
            cases hp : parseDigits cs with
            | none => rw [hp] at h; simp at h
            | some n =>
                rw [hp] at h
                simp only at h
                split_ifs at h with hr
                have hne : cs ≠ [] := by
                  intro hnil
                  rw [hnil] at hp
                  simp [parseDigits] at hp
                have hdv : digitsValue 0 cs = some n := by
                  cases cs with
                  | nil => exact absurd rfl hne
                  | cons d ds => exact hp
                refine ⟨['+'], cs, n, by simp [hplus], Or.inr (Or.inl rfl), hne,
                  parseDigits_all_digits cs n hp, hdv, Or.inr ⟨by decide, hr, ?_⟩⟩
                exact (Option.some.inj h).symm
          · rw [if_neg hplus] at h
            cases hp : parseDigits (c :: cs) with
            | none => rw [hp] at h; simp at h
            | some n =>
                rw [hp] at h
                simp only at h
                split_ifs at h with hr
                refine ⟨[], c :: cs, n, by simp, Or.inl rfl, by simp,
                  parseDigits_all_digits (c :: cs) n hp, hp, Or.inr ⟨by simp, hr, ?_⟩⟩
                exact (Option.some.inj h).symm
  · rintro ⟨sign, ds, n, hl, hsign, hne, hdig, hdv, hval⟩
    have hpd : parseDigits ds = some n := by
      cases ds with
      | nil => exact absurd rfl hne
      | cons d ds1 => exact hdv
    unfold Atoi
    rcases hsign with rfl | rfl | rfl
    · cases ds with
      | nil => exact absurd rfl hne
      | cons d ds1 =>
          have hd : isDigit d = true := hdig d (by simp)
          have hm : d ≠ '-' := by
            intro hh; rw [hh] at hd; exact absurd hd (by decide)
          have hplus : d ≠ '+' := by
            intro hh; rw [hh] at hd; exact absurd hd (by decide)
          rcases hval with ⟨hs, _, _⟩ | ⟨_, hr, hi⟩
          · exact absurd hs (by simp)
          · simp only [List.nil_append] at hl
            rw [hl]
            simpa [hm, hplus, hpd, hi] using hr
    · rcases hval with ⟨hs, _, _⟩ | ⟨_, hr, hi⟩
      · exact absurd hs (by decide)
      · simp only [List.singleton_append] at hl
        rw [hl]
        simpa [hpd, hi] using hr
    · rcases hval with ⟨_, hr, hi⟩ | ⟨hs, _, _⟩
      · simp only [List.singleton_append] at hl
        rw [hl]
        simpa [hpd, hi] using hr
      · exact absurd rfl hs

/-- C15: `Number t` is fatal exactly when `Atoi` does not read `t` (`"abc"` and
`""` are fatal), where `Atoi` reads exactly the texts made of an optional sign
and one or more decimal digits whose value lies within the 64-bit `int`.  When
`Atoi` reads `t` as `i`, `Number t` succeeds and pushes back the value
`current` handed out with the term query over its field whose value is the
integer `i`; the field, range operator and negation flag are as they were. -/
theorem C15_Number_fatal_iff (vs : ValueStack) (t : String) :
    (Number t vs = none ↔ Atoi t = none) ∧
    Number "abc" vs = none ∧
    Number "" vs = none ∧
    (∀ i : Int, Atoi t = some i →
      Number t vs = some ((current vs).2.Push (ValueRef.cell
        { Q := some (Query.NewTermQuery (current vs).1.Field (Lit.int i)),
          Field := (current vs).1.Field, RangeOp := (current vs).1.RangeOp,
          Negate := (current vs).1.Negate }))) ∧
    (∀ i : Int, Atoi t = some i ↔
      ∃ (sign ds : List Char) (n : Nat),
        t.toList = sign ++ ds ∧ (sign = [] ∨ sign = ['+'] ∨ sign = ['-']) ∧ ds ≠ [] ∧
        (∀ c ∈ ds, isDigit c = true) ∧ digitsValue 0 ds = some n ∧
        ((sign = ['-'] ∧ n ≤ 2 ^ 63 ∧ i = -(n : Int)) ∨
          (sign ≠ ['-'] ∧ n < 2 ^ 63 ∧ i = (n : Int)))) := by
  have habc : Atoi "abc" = none := by decide
  have hempty : Atoi "" = none := by decide
  refine ⟨?_, ?_, ?_, ?_, fun i => Atoi_eq_some_iff t i⟩
  · unfold Number
    cases h : Atoi t <;> simp
  · simp [Number, habc]
  · simp [Number, hempty]
  · intro i hi
    simp [Number, hi]

/-- C15 at concrete inputs: `Number "-93"` on the empty stack. -/
theorem C15_Number_fatal_iff_witness :
    Number "-93" { stack := [] } = some ((current { stack := [] }).2.Push (ValueRef.cell
        { Q := some (Query.NewTermQuery (current { stack := [] }).1.Field (Lit.int (-93))),
          Field := (current { stack := [] }).1.Field,
          RangeOp := (current { stack := [] }).1.RangeOp,
          Negate := (current { stack := [] }).1.Negate })) :=
  (C15_Number_fatal_iff { stack := [] } "-93").2.2.2.1 (-93) (by decide)

/-! ## The staging protocol -/

theorem append_singleton_eq {l x : List ValueRef} {a b : ValueRef}
    (h : l ++ [a] = x ++ [b]) : l = x ∧ a = b := by
  have h2 := List.append_inj' h rfl
  exact ⟨h2.1, by simpa using h2.2⟩

theorem topInProgress_cases (vs : ValueStack) :
    (topInProgress vs = true ↔ ∃ s v, vs.stack = s ++ [ValueRef.cell v] ∧ v.Q = none) ∧
    (topInProgress vs = false ↔
      (vs.stack = [] ∨ (∃ s, vs.stack = s ++ [ValueRef.groupInit]) ∨
        (∃ s v, vs.stack = s ++ [ValueRef.cell v] ∧ v.Q ≠ none))) := by
  cases vs with
  | mk st =>
    rcases List.eq_nil_or_concat st with h | ⟨l, p, h⟩
    · subst h
      simp [topInProgress]
    · simp only [List.concat_eq_append] at h
      subst h
      cases p with
      | groupInit =>
          have ht : topInProgress { stack := l ++ [ValueRef.groupInit] } = false := by
            simp [topInProgress]
          rw [ht]
          refine ⟨⟨fun h => absurd h (by simp), ?_⟩, ⟨fun _ => Or.inr (Or.inl ⟨l, rfl⟩), fun _ => rfl⟩⟩
          rintro ⟨s, v, hs, _⟩
          exact absurd (append_singleton_eq hs).2 (by simp)
      | cell w =>
          by_cases hw : w.Q = none
          · have ht : topInProgress { stack := l ++ [ValueRef.cell w] } = true := by
              simp [topInProgress, hw]
            rw [ht]
            refine ⟨⟨fun _ => ⟨l, w, rfl, hw⟩, fun _ => rfl⟩, ⟨fun h => absurd h (by simp), ?_⟩⟩
            rintro (h | ⟨s, h⟩ | ⟨s, v, h, hv⟩)
            · simp at h
            · exact absurd (append_singleton_eq h).2 (by simp)
            · have h2 := (append_singleton_eq h).2
              simp only [ValueRef.cell.injEq] at h2
              rw [h2] at hw
              exact absurd hw hv
          · have ht : topInProgress { stack := l ++ [ValueRef.cell w] } = false := by
              simp [topInProgress, hw]
            rw [ht]
            refine ⟨⟨fun h => absurd h (by simp), ?_⟩, ⟨fun _ => Or.inr (Or.inr ⟨l, w, rfl, hw⟩), fun _ => rfl⟩⟩
            rintro ⟨s, v, h, hv⟩
            have h2 := (append_singleton_eq h).2
            simp only [ValueRef.cell.injEq] at h2
            rw [← h2] at hv
            exact absurd hv hw

/-- C16: the staging protocol.  On every stack, `current` pops and returns the
top exactly when the stack is not empty, the top is not the sentinel and the
top has no query: the stack then loses that one element.  In every other case
(empty stack, sentinel on top, finalized node on top) it returns a fresh value
with the unset marker as field, `NoOp`, no query and `Negate = false`, and
leaves the stack as it was. -/
theorem C16_current_protocol (vs : ValueStack) :
    (topInProgress vs = true →
      ∃ s v, vs.stack = s ++ [ValueRef.cell v] ∧ v.Q = none ∧
        current vs = (v, { stack := s })) ∧
    (topInProgress vs = false →
      current vs =
        ({ Q := none, Field := NoField, RangeOp := RangeOp.NoOp, Negate := false }, vs)) ∧
    (topInProgress vs = true ↔
      (vs.stack ≠ [] ∧ vs.stack.getLast? ≠ some GroupInit ∧
        ∀ p, vs.stack.getLast? = some p → p.deref.Q = none)) ∧
    (∀ (s : List ValueRef) (v : Value),
      current { stack := [] } =
        ({ Q := none, Field := NoField, RangeOp := RangeOp.NoOp, Negate := false },
         { stack := [] }) ∧
      current { stack := s ++ [GroupInit] } =
        ({ Q := none, Field := NoField, RangeOp := RangeOp.NoOp, Negate := false },
         { stack := s ++ [GroupInit] }) ∧
      (v.Q ≠ none → current { stack := s ++ [ValueRef.cell v] } =
        ({ Q := none, Field := NoField, RangeOp := RangeOp.NoOp, Negate := false },
         { stack := s ++ [ValueRef.cell v] })) ∧
      (v.Q = none → current { stack := s ++ [ValueRef.cell v] } = (v, { stack := s }))) := by
  refine ⟨?_, ?_, ?_, ?_⟩
  · intro h
    obtain ⟨s, v, hs, hv⟩ := (topInProgress_cases vs).1.mp h
    refine ⟨s, v, hs, hv, ?_⟩
    cases vs with
    | mk st =>
      simp only at hs
      subst hs
      exact current_inProgress s v hv
  · intro h
    exact current_fresh vs ((topInProgress_cases vs).2.mp h)
  · cases vs with
    | mk st =>
      rcases List.eq_nil_or_concat st with h | ⟨l, p, h⟩
      · subst h
        simp [topInProgress]
      · simp only [List.concat_eq_append] at h
        subst h
        cases p with
        | groupInit => simp [topInProgress, GroupInit]
        | cell w => simp [topInProgress, GroupInit, ValueRef.deref]
  · intro s v
    exact ⟨rfl, current_groupInit s, current_finalized s v, current_inProgress s v⟩

/-- C16 at concrete stacks: an unfinished node above a sentinel is popped, a
finalized node is left in place. -/
theorem C16_current_protocol_witness :
    (∃ s v, ({ stack := [ValueRef.groupInit,
          ValueRef.cell (Value.mk none "a" RangeOp.NoOp true)] } : ValueStack).stack =
        s ++ [ValueRef.cell v] ∧ v.Q = none ∧
      current { stack := [ValueRef.groupInit,
          ValueRef.cell (Value.mk none "a" RangeOp.NoOp true)] } = (v, { stack := s })) ∧
    current { stack := [ValueRef.cell
        (Value.mk (some (Query.NewExistsQuery "a")) "a" RangeOp.NoOp false)] } =
      ({ Q := none, Field := NoField, RangeOp := RangeOp.NoOp, Negate := false },
       { stack := [ValueRef.cell
        (Value.mk (some (Query.NewExistsQuery "a")) "a" RangeOp.NoOp false)] }) :=
  ⟨(C16_current_protocol { stack := [ValueRef.groupInit,
      ValueRef.cell (Value.mk none "a" RangeOp.NoOp true)] }).1 (by decide),
   (C16_current_protocol { stack := [ValueRef.cell
      (Value.mk (some (Query.NewExistsQuery "a")) "a" RangeOp.NoOp false)] }).2.1 (by decide)⟩

/-! ## One unfinished node per nesting level -/

theorem topInProgress_cons_cons (a b : ValueRef) (rest : List ValueRef) :
    topInProgress { stack := a :: b :: rest } = topInProgress { stack := b :: rest } := by
  simp [topInProgress, List.getLast?_cons_cons]

/-- Pushing `x` keeps the invariant exactly when the old top is not an
unfinished node or `x` is the sentinel. -/
theorem stubsLast_append_singleton (x : ValueRef) :
    ∀ l : List ValueRef,
      stubsLast (l ++ [x]) = true ↔
        (stubsLast l = true ∧ (topInProgress { stack := l } = true → x = ValueRef.groupInit)) := by
  intro l
  induction l with
  | nil => simp [stubsLast, topInProgress]
  | cons a rest ih =>
      cases rest with
      | nil =>
          cases a with
          | groupInit => simp [stubsLast, topInProgress]
          | cell v => by_cases hv : v.Q = none <;> simp [stubsLast, topInProgress, hv]
      | cons b rest2 =>
          rw [topInProgress_cons_cons]
          have hshape : a :: b :: rest2 ++ [x] = a :: b :: (rest2 ++ [x]) := rfl
          have hshape2 : b :: rest2 ++ [x] = b :: (rest2 ++ [x]) := rfl
          rw [hshape]
          rw [hshape2] at ih
          cases a with
          | groupInit =>
              simp only [stubsLast]
              exact ih
          | cell v =>
              simp only [stubsLast, Bool.and_eq_true]
              rw [ih]
              tauto

theorem stubsLast_of_bottom (l : List ValueRef) :
    ∀ m : List ValueRef, stubsLast (l ++ m) = true → stubsLast l = true := by
  intro m
  induction m using List.reverseRecOn with
  | nil => intro h; simpa using h
  | append_singleton m x ih =>
      intro h
      rw [← List.append_assoc] at h
      exact ih ((stubsLast_append_singleton x (l ++ m)).mp h).1

/-- Putting back what `current` handed out, whatever was filled in, keeps the
invariant. -/
theorem stubsLast_current_Push (vs : ValueStack) (new : Value)
    (h : stubsLast vs.stack = true) :
    stubsLast ((current vs).2.Push (ValueRef.cell new)).stack = true := by
  simp only [Push]
  cases ht : topInProgress vs with
  | false =>
      rw [current_fresh vs ((topInProgress_cases vs).2.mp ht)]
      exact (stubsLast_append_singleton _ vs.stack).mpr
        ⟨h, fun h2 => by
          have h3 : topInProgress { stack := vs.stack } = topInProgress vs := rfl
          rw [h3, ht] at h2
          exact absurd h2 (by simp)⟩
  | true =>
      obtain ⟨s, v, hs, hv⟩ := (topInProgress_cases vs).1.mp ht
      cases vs with
      | mk st =>
        simp only at hs
        subst hs
        rw [current_inProgress s v hv]
        simp only at h ⊢
        have h2 := (stubsLast_append_singleton (ValueRef.cell v) s).mp h
        exact (stubsLast_append_singleton _ s).mpr
          ⟨h2.1, fun h3 => absurd (h2.2 h3) (by simp)⟩

/-! ## The shape of a builder call -/

theorem SetRangeOp_shape (rop : String) (vs vs1 : ValueStack)
    (h : SetRangeOp rop vs = some vs1) :
    ∃ new, vs1 = (current vs).2.Push (ValueRef.cell new) := by
  unfold SetRangeOp at h
  split_ifs at h <;> exact ⟨_, (Option.some.inj h).symm⟩

theorem Boolean_shape (value : String) (vs vs1 : ValueStack)
    (h : Boolean value vs = some vs1) :
    ∃ new, vs1 = (current vs).2.Push (ValueRef.cell new) := by
  unfold Boolean at h
  cases hp : ParseBool value with
  | none => rw [hp] at h; exact absurd h (by simp)
  | some b => rw [hp] at h; exact ⟨_, (Option.some.inj h).symm⟩

theorem Number_shape (value : String) (vs vs1 : ValueStack)
    (h : Number value vs = some vs1) :
    ∃ new, vs1 = (current vs).2.Push (ValueRef.cell new) := by
  unfold Number at h
  cases hp : Atoi value with
  | none => rw [hp] at h; exact absurd h (by simp)
  | some i => rw [hp] at h; exact ⟨_, (Option.some.inj h).symm⟩

theorem Date_shape (value : String) (vs vs1 : ValueStack)
    (h : Date value vs = some vs1) :
    ∃ new, vs1 = (current vs).2.Push (ValueRef.cell new) := by
  unfold Date at h
  split_ifs at h
  exact ⟨_, (Option.some.inj h).symm⟩

theorem Range_shape (value : String) (vs vs1 : ValueStack)
    (h : Range value vs = some vs1) :
    ∃ new, vs1 = (current vs).2.Push (ValueRef.cell new) := by
  unfold Range at h
  cases hv : rangeValue value with
  | none => rw [hv] at h; exact absurd h (by simp)
  | some v =>
      rw [hv] at h
      simp only at h
      split at h
      · exact ⟨_, (Option.some.inj h).symm⟩
      · exact ⟨_, (Option.some.inj h).symm⟩
      · exact ⟨_, (Option.some.inj h).symm⟩
      · exact ⟨_, (Option.some.inj h).symm⟩
      · exact absurd h (by simp)

/-- A successful builder call other than `SetNegation` pushes one cell onto
the stack `current` left; `SetNegation` pushes one cell onto the stack as it
was. -/
theorem builder_shape (op : Op) (vs vs1 : ValueStack) (hb : op.isBuilder = true)
    (hrun : op.run vs = some vs1) :
    (op = Op.SetNegation ∧ vs1 = vs.Push (ValueRef.cell (NewValue true))) ∨
      (op ≠ Op.SetNegation ∧ ∃ new, vs1 = (current vs).2.Push (ValueRef.cell new)) := by
  cases op with
  | StartGroup => exact absurd hb (by decide)
  | PopGroup => exact absurd hb (by decide)
  | SetNegation => exact Or.inl ⟨rfl, (Option.some.inj hrun).symm⟩
  | SetField field => exact Or.inr ⟨by simp, _, (Option.some.inj hrun).symm⟩
  | SetRangeOp rop => exact Or.inr ⟨by simp, SetRangeOp_shape rop vs vs1 hrun⟩
  | Boolean value => exact Or.inr ⟨by simp, Boolean_shape value vs vs1 hrun⟩
  | Exists => exact Or.inr ⟨by simp, _, (Option.some.inj hrun).symm⟩
  | Date value => exact Or.inr ⟨by simp, Date_shape value vs vs1 hrun⟩
  | Number value => exact Or.inr ⟨by simp, Number_shape value vs vs1 hrun⟩
  | Term term => exact Or.inr ⟨by simp, _, (Option.some.inj hrun).symm⟩
  | Match text => exact Or.inr ⟨by simp, _, (Option.some.inj hrun).symm⟩
  | Phrase phrase => exact Or.inr ⟨by simp, _, (Option.some.inj hrun).symm⟩
  | Range value => exact Or.inr ⟨by simp, Range_shape value vs vs1 hrun⟩
  | RangeOrNumber value =>
      refine Or.inr ⟨by simp, ?_⟩
      simp only [Op.run, RangeOrNumber] at hrun
      split_ifs at hrun
      · exact Number_shape value vs vs1 hrun
      · exact Range_shape value vs vs1 hrun
  | RangeOrDate value =>
      refine Or.inr ⟨by simp, ?_⟩
      simp only [Op.run, RangeOrDate] at hrun
      split_ifs at hrun
      · exact Date_shape value vs vs1 hrun
      · exact Range_shape value vs vs1 hrun

theorem Pop_keeps_bottom (vs : ValueStack) : vs.Pop.2.stack <+: vs.stack := by
  unfold Pop
  split_ifs
  · exact List.prefix_refl _
  · exact List.dropLast_prefix _

theorem loop_keeps_bottom :
    ∀ (fuel : Nat) (out : List ValueRef) (next : Option ValueRef) (vs : ValueStack),
      (PopGroup.loop fuel out next vs).2.stack <+: vs.stack := by
  intro fuel
  induction fuel with
  | zero => intro out next vs; exact List.prefix_refl _
  | succ k ih =>
      intro out next vs
      cases next with
      | none => exact List.prefix_refl _
      | some p =>
          simp only [PopGroup.loop]
          split_ifs
          · exact List.prefix_refl _
          · exact (ih _ _ _).trans (Pop_keeps_bottom vs)
          · exact List.prefix_refl _

/-- The stack `PopGroup` leaves is the bottom part of the stack it found. -/
theorem PopGroup_keeps_bottom (vs : ValueStack) : vs.PopGroup.2.stack <+: vs.stack :=
  (loop_keeps_bottom _ _ _ _).trans (Pop_keeps_bottom vs)

/-- One call keeps the invariant, provided a `SetNegation` is not called on an
unfinished top. -/
theorem stubsLast_step (op : Op) (vs vs1 : ValueStack) (hrun : op.run vs = some vs1)
    (hneg : (decide (op = Op.SetNegation) && topInProgress vs) = false)
    (h : stubsLast vs.stack = true) : stubsLast vs1.stack = true := by
  by_cases hb : op.isBuilder = true
  · rcases builder_shape op vs vs1 hb hrun with ⟨hop, hvs⟩ | ⟨_, new, hvs⟩
    · subst hvs
      have ht : topInProgress vs = false := by simpa [hop] using hneg
      simp only [Push]
      exact (stubsLast_append_singleton _ vs.stack).mpr
        ⟨h, fun h2 => by
          have h3 : topInProgress { stack := vs.stack } = topInProgress vs := rfl
          rw [h3, ht] at h2
          exact absurd h2 (by simp)⟩
    · subst hvs
      exact stubsLast_current_Push vs new h
  · cases op with
    | StartGroup =>
        simp only [Op.run, Option.some.injEq] at hrun
        subst hrun
        simp only [StartGroup, Push, GroupInit]
        exact (stubsLast_append_singleton _ vs.stack).mpr ⟨h, fun _ => rfl⟩
    | PopGroup =>
        simp only [Op.run, Option.some.injEq] at hrun
        subst hrun
        obtain ⟨m, hm⟩ := PopGroup_keeps_bottom vs
        rw [← hm] at h
        exact stubsLast_of_bottom _ m h
    | _ => exact absurd rfl hb

theorem stubsLast_runOps (ops : List Op) :
    ∀ (vs vs1 : ValueStack), runOps ops vs = some vs1 → negationOpensNode ops vs = true →
      stubsLast vs.stack = true → stubsLast vs1.stack = true := by
  induction ops with
  | nil =>
      intro vs vs1 hrun _ h
      simp only [runOps, Option.some.injEq] at hrun
      rw [← hrun]; exact h
  | cons op ops ih =>
      intro vs vs1 hrun hd h
      simp only [runOps] at hrun
      simp only [negationOpensNode, Bool.and_eq_true] at hd
      cases hop : op.run vs with
      | none => rw [hop] at hrun; exact absurd hrun (by simp)
      | some vs2 =>
          rw [hop] at hrun hd
          have hneg : (decide (op = Op.SetNegation) && topInProgress vs) = false := by
            have h1 := hd.1
            cases hb : (decide (op = Op.SetNegation) && topInProgress vs) with
            | false => rfl
            | true => rw [hb] at h1; exact absurd h1 (by simp)
          exact ih vs2 vs1 hrun hd.2 (stubsLast_step op vs vs2 hop hneg h)

/-- Under the invariant no run between sentinels holds two unfinished nodes. -/
theorem atMostOneInFlight_of_stubsLast :
    ∀ (l : List ValueRef) (seen : Bool), stubsLast l = true →
      (seen = true → l = [] ∨ ∃ rest, l = ValueRef.groupInit :: rest) →
        atMostOneInFlight seen l = true := by
  intro l
  induction l with
  | nil => intro seen _ _; rfl
  | cons a rest ih =>
      intro seen h hseen
      cases a with
      | groupInit =>
          simp only [atMostOneInFlight]
          refine ih false ?_ (fun h2 => absurd h2 (by simp))
          cases rest with
          | nil => rfl
          | cons b r => simpa [stubsLast] using h
      | cell v =>
          have hs : seen = false := by
            cases seen with
            | false => rfl
            | true =>
                rcases hseen rfl with h2 | ⟨r, h2⟩
                · exact absurd h2 (by simp)
                · exact absurd h2 (by simp)
          subst hs
          cases rest with
          | nil => by_cases hv : v.Q = none <;> simp [atMostOneInFlight, hv]
          | cons b r =>
              simp only [stubsLast, Bool.and_eq_true, Bool.or_eq_true, decide_eq_true_eq] at h
              by_cases hv : v.Q = none
              · simp only [atMostOneInFlight, hv, if_true, Bool.not_false, Bool.true_and]
                refine ih true h.2 (fun _ => Or.inr ⟨r, ?_⟩)
                rcases h.1 with h1 | h1
                · exact absurd hv h1
                · rw [h1]
              · simp only [atMostOneInFlight, hv, if_false]
                exact ih false h.2 (fun h2 => absurd h2 (by simp))

/-- Two unfinished nodes on top of each other break the property. -/
theorem atMostOneInFlight_two_stubs (v w : Value) (hv : v.Q = none) (hw : w.Q = none) :
    ∀ (s : List ValueRef) (seen : Bool),
      atMostOneInFlight seen (s ++ [ValueRef.cell v, ValueRef.cell w]) = false := by
  intro s
  induction s with
  | nil => intro seen; simp [atMostOneInFlight, hv, hw]
  | cons a rest ih =>
      intro seen
      cases a with
      | groupInit => simp only [List.cons_append, atMostOneInFlight]; exact ih false
      | cell u =>
          simp only [List.cons_append, atMostOneInFlight]
          split_ifs
          · have h2 := ih true
            simp only [List.append_eq] at h2 ⊢
            rw [h2]; simp
          · exact ih seen

/-- C17 as stated fails: `Init(); SetNegation(); SetNegation()` is a sequence
of public operations, and the stack it reaches holds two unfinished nodes in
one run without a sentinel between them.  So it is not the case that every
stack reachable from `Init()` by public operations has at most one unfinished
node per nesting level. -/
theorem C17_two_stubs_counterexample :
    ¬ (∀ (ops : List Op) (vs : ValueStack),
        runOps ops Init = some vs → SingleInFlight vs = true) := by
  intro h
  have h2 := h [Op.SetNegation, Op.SetNegation]
    { stack := [ValueRef.cell (NewValue true), ValueRef.cell (NewValue true)] } rfl
  exact absurd h2 (by decide)

/-- C17, amended: in every stack reached from `Init()` by a sequence of the
public staging, grouping and leaf operations in which `SetNegation` is only
called when the top of the stack is not an unfinished node (negation opens a
new node), each maximal run of stack elements between sentinels holds at most
one unfinished node.  The condition cannot be dropped: a `SetNegation` called
on any stack whose top is an unfinished node leaves two unfinished nodes in
one run. -/
theorem C17_single_in_flight (ops : List Op) (vs : ValueStack)
    (hrun : runOps ops Init = some vs) (hd : negationOpensNode ops Init = true) :
    SingleInFlight vs = true ∧
    (∀ vs0 : ValueStack, topInProgress vs0 = true →
      SingleInFlight (SetNegation vs0) = false) := by
  constructor
  · have h := stubsLast_runOps ops Init vs hrun hd rfl
    exact atMostOneInFlight_of_stubsLast vs.stack false h (fun h2 => absurd h2 (by simp))
  · intro vs0 ht
    obtain ⟨s, v, hs, hv⟩ := (topInProgress_cases vs0).1.mp ht
    have h := atMostOneInFlight_two_stubs v (NewValue true) hv rfl s false
    simpa [SingleInFlight, SetNegation, Push, hs] using h

/-- C17, amended, at a concrete run: a negated group with one term, followed
by a negated field that is still unfinished. -/
theorem C17_single_in_flight_witness :
    SingleInFlight
        { stack := [ValueRef.cell (Value.mk none NoField RangeOp.NoOp true), ValueRef.groupInit,
            ValueRef.cell (Value.mk (some (Query.NewTermQuery "a" (Lit.str "x"))) "a"
              RangeOp.NoOp false),
            ValueRef.cell (Value.mk none "b" RangeOp.NoOp true)] } = true ∧
    SingleInFlight (SetNegation
        { stack := [ValueRef.cell (Value.mk none "b" RangeOp.NoOp false)] }) = false :=
  ⟨(C17_single_in_flight
      [Op.SetNegation, Op.StartGroup, Op.SetField "a", Op.Term "x", Op.SetNegation,
       Op.SetField "b"]
      { stack := [ValueRef.cell (Value.mk none NoField RangeOp.NoOp true), ValueRef.groupInit,
          ValueRef.cell (Value.mk (some (Query.NewTermQuery "a" (Lit.str "x"))) "a"
            RangeOp.NoOp false),
          ValueRef.cell (Value.mk none "b" RangeOp.NoOp true)] }
      (by decide) (by decide)).1,
   (C17_single_in_flight [] Init rfl rfl).2
      { stack := [ValueRef.cell (Value.mk none "b" RangeOp.NoOp false)] } (by decide)⟩

/-! ## Dispatch next to a finalized node -/

/-- On a fresh value (top not reusable) `Range` is fatal. -/
theorem Range_fatal_on_fresh (vs : ValueStack) (t : String)
    (htop : vs.stack = [] ∨ (∃ s, vs.stack = s ++ [ValueRef.groupInit]) ∨
      (∃ s v, vs.stack = s ++ [ValueRef.cell v] ∧ v.Q ≠ none)) :
    Range t vs = none := by
  have hc := current_fresh vs htop
  unfold Range
  cases hv : rangeValue t with
  | none => rfl
  | some v => simp [hc, NewValue]

/-- Above a finalized node that carries a range operator, both dispatch helpers
are fatal, whatever the text: the test looks at the operator of the top only,
`Range` is chosen, and `Range` works on a fresh value whose operator is
`NoOp`. -/
theorem dispatch_fatal_above_finalized_range (s : List ValueRef) (v : Value) (t : String)
    (hq : v.Q ≠ none) (hop : v.RangeOp ≠ RangeOp.NoOp) :
    RangeOrNumber t { stack := s ++ [ValueRef.cell v] } = none ∧
    RangeOrDate t { stack := s ++ [ValueRef.cell v] } = none := by
  have hdisp : noRangeInProgress { stack := s ++ [ValueRef.cell v] } = false := by
    simp [noRangeInProgress, ValueRef.deref, hop]
  have hr : Range t { stack := s ++ [ValueRef.cell v] } = none :=
    (Range_fatal_on_fresh { stack := s ++ [ValueRef.cell v] } t (Or.inr (Or.inr ⟨s, v, rfl, hq⟩)))
  simp [RangeOrNumber, RangeOrDate, hdisp, hr]

/-- C18: evaluation next to a finalized range node.  After `SetField "age";
SetRangeOp ">"; RangeOrNumber "5"` the top is the finalized range `age > 5`.
A further `RangeOrNumber "7"` is fatal, and so is `RangeOrDate "2020-01-15"`:
`Range` is chosen although no range comparison is in progress.  `Number "7"`
on the same stack does leave the finalized node alone and pushes a new integer
term node, and above a finalized node without range operator both helpers do
succeed with a new node. -/
theorem C18_dispatch_fatal_after_finalized_range :
    (SetRangeOp ">" (SetField "age" Init)).bind (RangeOrNumber "5") =
      some { stack := [ValueRef.cell
        (Value.mk (some (Query.range ((NewRangeQuery "age").Gt (Lit.int 5)))) "age"
          RangeOp.GreaterThan false)] } ∧
    RangeOrNumber "7" { stack := [ValueRef.cell
        (Value.mk (some (Query.range ((NewRangeQuery "age").Gt (Lit.int 5)))) "age"
          RangeOp.GreaterThan false)] } = none ∧
    RangeOrDate "2020-01-15" { stack := [ValueRef.cell
        (Value.mk (some (Query.range ((NewRangeQuery "age").Gt (Lit.int 5)))) "age"
          RangeOp.GreaterThan false)] } = none ∧
    Number "7" { stack := [ValueRef.cell
        (Value.mk (some (Query.range ((NewRangeQuery "age").Gt (Lit.int 5)))) "age"
          RangeOp.GreaterThan false)] } =
      some { stack := [ValueRef.cell
        (Value.mk (some (Query.range ((NewRangeQuery "age").Gt (Lit.int 5)))) "age"
          RangeOp.GreaterThan false),
        ValueRef.cell
        (Value.mk (some (Query.NewTermQuery NoField (Lit.int 7))) NoField RangeOp.NoOp false)] } ∧
    RangeOrNumber "7" { stack := [ValueRef.cell
        (Value.mk (some (Query.NewTermQuery "a" (Lit.str "x"))) "a" RangeOp.NoOp false)] } =
      some { stack := [ValueRef.cell
        (Value.mk (some (Query.NewTermQuery "a" (Lit.str "x"))) "a" RangeOp.NoOp false),
        ValueRef.cell
        (Value.mk (some (Query.NewTermQuery NoField (Lit.int 7))) NoField RangeOp.NoOp false)] } ∧
    RangeOrDate "2020-01-15" { stack := [ValueRef.cell
        (Value.mk (some (Query.NewTermQuery "a" (Lit.str "x"))) "a" RangeOp.NoOp false)] } =
      some { stack := [ValueRef.cell
        (Value.mk (some (Query.NewTermQuery "a" (Lit.str "x"))) "a" RangeOp.NoOp false),
        ValueRef.cell
        (Value.mk (some (Query.NewTermQuery "_all" (Lit.str "2020-01-15"))) "_all"
          RangeOp.NoOp false)] } := by
  decide

/-! ## Groups prefixed by a negation -/

/-- For every field other than the marker text and every text, `PopGroup`
returns the same slice with and without a `SetNegation` before `StartGroup`,
and with it the negation stub stays on the stack. -/
theorem PopGroup_same_with_negation (f t : String) (hf : f ≠ GroupInitField) :
    (PopGroup (Term t (SetField f (StartGroup (SetNegation Init))))).1 =
      (PopGroup (Term t (SetField f (StartGroup Init)))).1 ∧
    (PopGroup (Term t (SetField f (StartGroup (SetNegation Init))))).2 =
      { stack := [ValueRef.cell (NewValue true)] } := by
  have hnode : IsMember (ValueRef.cell
      { Q := some (Query.NewTermQuery (if f = NoField then "_all" else f) (Lit.str t)),
        Field := if f = NoField then "_all" else f,
        RangeOp := RangeOp.NoOp, Negate := false }) := by
    refine ⟨by simp, ?_⟩
    simp only [ValueRef.deref]
    split_ifs
    · decide
    · exact hf
  have h1 : Term t (SetField f (StartGroup (SetNegation Init))) =
      { stack := [ValueRef.cell (NewValue true)] ++ [GroupInit] ++ [ValueRef.cell
        { Q := some (Query.NewTermQuery (if f = NoField then "_all" else f) (Lit.str t)),
          Field := if f = NoField then "_all" else f,
          RangeOp := RangeOp.NoOp, Negate := false }] } := by
    by_cases h : f = NoField <;>
      simp [Term, SetField, StartGroup, SetNegation, Init, Push, current, NewValue, NoQuery,
        defaultField, GroupInit, h]
  have h2 : Term t (SetField f (StartGroup Init)) =
      { stack := [] ++ [GroupInit] ++ [ValueRef.cell
        { Q := some (Query.NewTermQuery (if f = NoField then "_all" else f) (Lit.str t)),
          Field := if f = NoField then "_all" else f,
          RangeOp := RangeOp.NoOp, Negate := false }] } := by
    by_cases h : f = NoField <;>
      simp [Term, SetField, StartGroup, Init, Push, current, NewValue, NoQuery,
        defaultField, GroupInit, h]
  have hm : ∀ p ∈ [ValueRef.cell
        { Q := some (Query.NewTermQuery (if f = NoField then "_all" else f) (Lit.str t)),
          Field := if f = NoField then "_all" else f,
          RangeOp := RangeOp.NoOp, Negate := false }], IsMember p := by
    intro p hp
    rw [List.mem_singleton] at hp
    rw [hp]; exact hnode
  rw [h1, h2, PopGroup_to_sentinel _ _ hm, PopGroup_to_sentinel _ _ hm]
  exact ⟨rfl, rfl⟩

/-- C19: evaluation of a negated group.  `PopGroup` returns the same slice
after `Init(); SetNegation(); StartGroup(); SetField "a"; Term "x"` as after
`Init(); StartGroup(); SetField "a"; Term "x"`: the one node `a`, not negated.
With the negation the stack is not empty afterwards: the negation stub is
still on it as an unfinished node, and the next staging call fills it in, so
that the node of a following `SetField "b"` is negated. -/
theorem C19_PopGroup_drops_group_negation :
    (PopGroup (Term "x" (SetField "a" (StartGroup (SetNegation Init))))).1 =
      [ValueRef.cell
        (Value.mk (some (Query.NewTermQuery "a" (Lit.str "x"))) "a" RangeOp.NoOp false)] ∧
    (PopGroup (Term "x" (SetField "a" (StartGroup Init)))).1 =
      [ValueRef.cell
        (Value.mk (some (Query.NewTermQuery "a" (Lit.str "x"))) "a" RangeOp.NoOp false)] ∧
    (PopGroup (Term "x" (SetField "a" (StartGroup Init)))).2 = { stack := [] } ∧
    (PopGroup (Term "x" (SetField "a" (StartGroup (SetNegation Init))))).2 =
      { stack := [ValueRef.cell (Value.mk none NoField RangeOp.NoOp true)] } ∧
    topInProgress (PopGroup (Term "x" (SetField "a" (StartGroup (SetNegation Init))))).2 = true ∧
    SetField "b" (PopGroup (Term "x" (SetField "a" (StartGroup (SetNegation Init))))).2 =
      { stack := [ValueRef.cell (Value.mk none "b" RangeOp.NoOp true)] } := by
  decide

/-! ## Frame of the builder operations -/

/-- The frame of the builder operations on the stack of values.  For every
stack of values and every successful call of `SetNegation`, `SetField`, `SetRangeOp`, `Boolean`,
`Exists`, `Date`, `Number`, `Term`, `Match`, `Phrase`, `Range`,
`RangeOrNumber` or `RangeOrDate`, the resulting stack is the old stack with
one new node appended, or the old stack with only its top replaced, the
replaced top being an unfinished node.  All elements below the top are
unchanged and in the same order, the length does not decrease and grows by at
most one, and a sentinel stays where it was. -/
theorem builder_frame_values (op : Op) (vs vs1 : ValueStack) (hb : op.isBuilder = true)
    (hrun : op.run vs = some vs1) :
    ((∃ new, vs1.stack = vs.stack ++ [ValueRef.cell new]) ∨
      (∃ s old new, vs.stack = s ++ [ValueRef.cell old] ∧ old.Q = none ∧
        vs1.stack = s ++ [ValueRef.cell new])) ∧
    vs1.stack.take (vs.stack.length - 1) = vs.stack.take (vs.stack.length - 1) ∧
    vs.stack.length ≤ vs1.stack.length ∧
    vs1.stack.length ≤ vs.stack.length + 1 ∧
    (∀ i : Nat, vs.stack[i]? = some ValueRef.groupInit →
      vs1.stack[i]? = some ValueRef.groupInit) := by
  have hshape : (∃ new, vs1.stack = vs.stack ++ [ValueRef.cell new]) ∨
      (∃ s old new, vs.stack = s ++ [ValueRef.cell old] ∧ old.Q = none ∧
        vs1.stack = s ++ [ValueRef.cell new]) := by
    rcases builder_shape op vs vs1 hb hrun with ⟨_, hvs⟩ | ⟨_, new, hvs⟩
    · exact Or.inl ⟨_, by rw [hvs]; rfl⟩
    · cases ht : topInProgress vs with
      | false =>
          rw [current_fresh vs ((topInProgress_cases vs).2.mp ht)] at hvs
          exact Or.inl ⟨new, by rw [hvs]; rfl⟩
      | true =>
          obtain ⟨s, v, hs, hv⟩ := (topInProgress_cases vs).1.mp ht
          refine Or.inr ⟨s, v, new, hs, hv, ?_⟩
          cases vs with
          | mk st =>
            simp only at hs
            subst hs
            rw [current_inProgress s v hv] at hvs
            rw [hvs]; rfl
  refine ⟨hshape, ?_⟩
  rcases hshape with ⟨new, h1⟩ | ⟨s, old, new, h0, _, h1⟩
  · rw [h1]
    refine ⟨?_, by simp, by simp, ?_⟩
    · rw [List.take_append_of_le_length (by omega)]
    · intro i hi
      have hlt : i < vs.stack.length := (List.getElem?_eq_some_iff.mp hi).1
      rw [List.getElem?_append_left hlt]
      exact hi
  · rw [h1, h0]
    refine ⟨?_, by simp, by simp, ?_⟩
    · simp
    · intro i hi
      have hlt : i < (s ++ [ValueRef.cell old]).length := (List.getElem?_eq_some_iff.mp hi).1
      simp only [List.length_append, List.length_singleton] at hlt
      rcases Nat.lt_or_ge i s.length with h2 | h2
      · rw [List.getElem?_append_left h2] at hi ⊢
        exact hi
      · have h3 : i = s.length := by omega
        subst h3
        simp at hi

/-- The frame on the stack of values at concrete calls: `Term "x"` replaces an unfinished top above a
sentinel, and `SetRangeOp "<"` appends a node above a sentinel, which stays at
the bottom of the stack. -/
theorem builder_frame_values_example :
    ((∃ new, (Term "x" { stack := [ValueRef.groupInit,
          ValueRef.cell (Value.mk none "a" RangeOp.NoOp false)] }).stack =
        ({ stack := [ValueRef.groupInit,
          ValueRef.cell (Value.mk none "a" RangeOp.NoOp false)] } : ValueStack).stack ++
          [ValueRef.cell new]) ∨
      (∃ s old new, ({ stack := [ValueRef.groupInit,
          ValueRef.cell (Value.mk none "a" RangeOp.NoOp false)] } : ValueStack).stack =
          s ++ [ValueRef.cell old] ∧ old.Q = none ∧
        (Term "x" { stack := [ValueRef.groupInit,
          ValueRef.cell (Value.mk none "a" RangeOp.NoOp false)] }).stack =
          s ++ [ValueRef.cell new])) ∧
    ({ stack := [ValueRef.groupInit,
          ValueRef.cell (Value.mk none NoField RangeOp.LessThan false)] } : ValueStack).stack[0]? =
        some ValueRef.groupInit :=
  ⟨(builder_frame_values (Op.Term "x")
      { stack := [ValueRef.groupInit, ValueRef.cell (Value.mk none "a" RangeOp.NoOp false)] }
      (Term "x" { stack := [ValueRef.groupInit,
          ValueRef.cell (Value.mk none "a" RangeOp.NoOp false)] }) rfl rfl).1,
   (builder_frame_values (Op.SetRangeOp "<") { stack := [ValueRef.groupInit] }
      { stack := [ValueRef.groupInit,
          ValueRef.cell (Value.mk none NoField RangeOp.LessThan false)] } rfl
      (by decide)).2.2.2.2 0 (by decide)⟩

/-! ## The stack of values as a reading of the stack of pointers -/

theorem ptr_read_alloc_old (st : PtrStack) (v : Value) (p : Addr) (h : p < st.heap.length) :
    (st.alloc v).2.read p = st.read p := by
  simp [PtrStack.read, PtrStack.alloc, List.getD_eq_getElem?_getD, List.getElem?_append_left h]

theorem ptr_read_alloc_new (st : PtrStack) (v : Value) :
    (st.alloc v).2.read (st.alloc v).1 = v := by
  simp [PtrStack.read, PtrStack.alloc, List.getD_eq_getElem?_getD]

theorem ptr_read_write_other (st : PtrStack) (v : Value) (p a : Addr) (h : a ≠ p) :
    (st.write p v).read a = st.read a := by
  simp [PtrStack.read, PtrStack.write, List.getD_eq_getElem?_getD, List.getElem?_set, Ne.symm h]

theorem ptr_read_write_same (st : PtrStack) (v : Value) (p : Addr) (h : p < st.heap.length) :
    (st.write p v).read p = v := by
  simp [PtrStack.read, PtrStack.write, List.getD_eq_getElem?_getD, List.getElem?_set, h]

theorem ptr_current_fresh (st : PtrStack)
    (h : st.stack.getLast? = none ∨
      ∃ p, st.stack.getLast? = some p ∧ (p = GroupInitAddr ∨ (st.read p).Q ≠ none)) :
    st.current = st.alloc (NewValue false) := by
  unfold PtrStack.current
  rcases h with h | ⟨p, h, hp⟩
  · rw [h]
  · rw [h]
    simp only [NoQuery]
    rw [if_pos hp]

theorem ptr_current_reuse (st : PtrStack) (s : List Addr) (p : Addr)
    (hs : st.stack = s ++ [p]) (hp : p ≠ GroupInitAddr) (hq : (st.read p).Q = none) :
    st.current = (p, { st with stack := s }) := by
  unfold PtrStack.current
  have hl : st.stack.getLast? = some p := by rw [hs]; simp
  rw [hl]
  simp only [NoQuery]
  rw [if_neg (by simp [hp, hq])]
  simp [hs]

/-- Filling a cell made by `current` itself: the stack read as values gets one
more element, whatever pointers are shared. -/
theorem fillTop_abs_fresh (st : PtrStack) (g : Value → Value) (hwf : st.WF)
    (hc : st.current = st.alloc (NewValue false)) :
    (st.fillTop g).abs = { stack := st.abs.stack ++ [ValueRef.cell (g (NewValue false))] } ∧
      st.current.2.read st.current.1 = NewValue false := by
  have hlen : 0 < st.heap.length := by
    have h0 := hwf.1
    exact (List.getElem?_eq_some_iff.mp h0).1
  have hread : st.current.2.read st.current.1 = NewValue false := by
    rw [hc]; exact ptr_read_alloc_new st (NewValue false)
  refine ⟨?_, hread⟩
  have hfill : st.fillTop g =
      ((st.alloc (NewValue false)).2.write st.heap.length (g (NewValue false))).Push
        st.heap.length := by
    unfold PtrStack.fillTop
    rw [hread, hc]
    rfl
  rw [hfill]
  simp only [PtrStack.abs, PtrStack.Push, PtrStack.write, PtrStack.alloc, List.map_append,
    List.map_cons, List.map_nil]
  congr 1
  congr 1
  · apply List.map_congr_left
    intro a ha
    have halt : a < st.heap.length := hwf.2 a ha
    simp only [PtrStack.view, PtrStack.read, List.getD_eq_getElem?_getD]
    have hne : st.heap.length ≠ a := Nat.ne_of_gt halt
    rw [List.getElem?_set, if_neg hne, List.getElem?_append_left halt]
  · simp only [PtrStack.view, PtrStack.read, List.getD_eq_getElem?_getD, GroupInitAddr]
    rw [if_neg (Nat.ne_of_gt hlen)]
    simp [List.getElem?_set]

/-- Filling the popped top when its pointer stands nowhere else on the stack:
the stack read as values has only its top replaced. -/
theorem fillTop_abs_reuse (st : PtrStack) (g : Value → Value) (hwf : st.WF)
    (s : List Addr) (p : Addr) (hs : st.stack = s ++ [p]) (hp : p ≠ GroupInitAddr)
    (hq : (st.read p).Q = none) (hns : p ∉ s) :
    (st.fillTop g).abs = { stack := s.map st.view ++ [ValueRef.cell (g (st.read p))] } ∧
      st.current.2.read st.current.1 = st.read p ∧
      st.abs.stack = s.map st.view ++ [ValueRef.cell (st.read p)] := by
  have hc := ptr_current_reuse st s p hs hp hq
  have hplt : p < st.heap.length := hwf.2 p (by rw [hs]; simp)
  have hread : st.current.2.read st.current.1 = st.read p := by rw [hc]; rfl
  refine ⟨?_, hread, ?_⟩
  · have hfill : st.fillTop g =
        (({ st with stack := s } : PtrStack).write p (g (st.read p))).Push p := by
      unfold PtrStack.fillTop
      rw [hread, hc]
    rw [hfill]
    simp only [PtrStack.abs, PtrStack.Push, PtrStack.write, List.map_append,
      List.map_cons, List.map_nil]
    congr 1
    congr 1
    · apply List.map_congr_left
      intro a ha
      have hne : p ≠ a := fun h => hns (h ▸ ha)
      simp only [PtrStack.view, PtrStack.read, List.getD_eq_getElem?_getD]
      rw [List.getElem?_set, if_neg hne]
    · simp only [PtrStack.view, PtrStack.read, List.getD_eq_getElem?_getD]
      rw [if_neg hp]
      simp [List.getElem?_set, hplt]
  · simp only [PtrStack.abs, hs, List.map_append, List.map_cons, List.map_nil]
    simp [PtrStack.view, hp]

theorem ptr_read_GroupInit (st : PtrStack) (hwf : st.WF) :
    st.read GroupInitAddr = GroupInitValue := by
  simp [PtrStack.read, List.getD_eq_getElem?_getD, GroupInitAddr, hwf.1]

theorem ptr_view_deref (st : PtrStack) (hwf : st.WF) (p : Addr) :
    (st.view p).deref = st.read p := by
  unfold PtrStack.view
  split_ifs with h
  · rw [h, ptr_read_GroupInit st hwf]; rfl
  · rfl

/-- When the pointer of an unfinished top stands nowhere else on the stack,
`current`, an assignment and `Push` do on the stack of pointers what they do
on the stack of values. -/
theorem fillTop_abs (st : PtrStack) (g : Value → Value) (hwf : st.WF)
    (hns : st.topShared = false) :
    (st.fillTop g).abs = st.abs.fillTop g ∧
      st.current.2.read st.current.1 = (current st.abs).1 := by
  rcases List.eq_nil_or_concat st.stack with h | ⟨s, p, h⟩
  · have hcv : current st.abs = (NewValue false, st.abs) := by
      apply current_fresh
      left
      simp [PtrStack.abs, h]
    have hf := fillTop_abs_fresh st g hwf (ptr_current_fresh st (Or.inl (by rw [h]; rfl)))
    rw [hf.1, hf.2]
    simp [ValueStack.fillTop, hcv, Push]
  · simp only [List.concat_eq_append] at h
    have hlast : st.stack.getLast? = some p := by rw [h]; simp
    have habs : st.abs.stack = s.map st.view ++ [st.view p] := by
      simp [PtrStack.abs, h]
    by_cases hp : p = GroupInitAddr
    · have hcv : current st.abs = (NewValue false, st.abs) := by
        apply current_fresh
        right; left
        exact ⟨s.map st.view, by rw [habs]; simp [PtrStack.view, hp]⟩
      have hf := fillTop_abs_fresh st g hwf
        (ptr_current_fresh st (Or.inr ⟨p, hlast, Or.inl hp⟩))
      rw [hf.1, hf.2]
      simp [ValueStack.fillTop, hcv, Push]
    · by_cases hq : (st.read p).Q = none
      · have hmem : p ∉ s := by
          intro hin
          have : st.topShared = true := by
            simp [PtrStack.topShared, hlast, hp, hq, h, hin]
          rw [hns] at this
          exact absurd this (by simp)
        have hf := fillTop_abs_reuse st g hwf s p h hp hq hmem
        have hcv : current st.abs = (st.read p, { stack := s.map st.view }) := by
          have h2 := current_inProgress (s.map st.view) (st.read p) hq
          rw [← hf.2.2] at h2
          exact h2
        rw [hf.1, hf.2.1]
        simp [ValueStack.fillTop, hcv, Push]
      · have hcv : current st.abs = (NewValue false, st.abs) := by
          apply current_fresh
          right; right
          exact ⟨s.map st.view, st.read p, by rw [habs]; simp [PtrStack.view, hp], hq⟩
        have hf := fillTop_abs_fresh st g hwf
          (ptr_current_fresh st (Or.inr ⟨p, hlast, Or.inr hq⟩))
        rw [hf.1, hf.2]
        simp [ValueStack.fillTop, hcv, Push]

theorem SetNegation_abs (st : PtrStack) (hwf : st.WF) :
    st.SetNegation.abs = st.abs.SetNegation := by
  have hlen : 0 < st.heap.length := (List.getElem?_eq_some_iff.mp hwf.1).1
  simp only [PtrStack.SetNegation, PtrStack.abs, PtrStack.Push, PtrStack.alloc, SetNegation,
    Push, List.map_append, List.map_cons, List.map_nil]
  congr 1
  congr 1
  · apply List.map_congr_left
    intro a ha
    have halt : a < st.heap.length := hwf.2 a ha
    simp only [PtrStack.view, PtrStack.read, List.getD_eq_getElem?_getD]
    rw [List.getElem?_append_left halt]
  · simp only [PtrStack.view, PtrStack.read, List.getD_eq_getElem?_getD, GroupInitAddr]
    rw [if_neg (Nat.ne_of_gt hlen)]
    simp

theorem noRangeInProgress_abs (st : PtrStack) (hwf : st.WF) :
    noRangeInProgress st.abs = st.noRangeInProgress := by
  unfold noRangeInProgress PtrStack.noRangeInProgress
  simp only [PtrStack.abs, List.getLast?_map]
  cases st.stack.getLast? with
  | none => rfl
  | some p => simp [ptr_view_deref st hwf p]

/-- Each builder operation, run on a stack of pointers in which the pointer of
an unfinished top stands nowhere else, gives the stack that the same operation
gives on the stack of values. -/
theorem builder_refines (op : Op) (st : PtrStack) (hb : op.isBuilder = true) (hwf : st.WF)
    (hns : st.topShared = false) :
    (op.runPtr st).map PtrStack.abs = op.run st.abs := by
  have hread : st.current.2.read st.current.1 = (current st.abs).1 :=
    (fillTop_abs st id hwf hns).2
  have hfill : ∀ g : Value → Value,
      ((st.current.2.write st.current.1 (g (st.current.2.read st.current.1))).Push
        st.current.1).abs = (current st.abs).2.Push (ValueRef.cell (g (current st.abs).1)) :=
    fun g => (fillTop_abs st g hwf hns).1
  have hNumber : ∀ value : String,
      (st.Number value).map PtrStack.abs = Number value st.abs := by
    intro value
    unfold PtrStack.Number Number
    cases Atoi value with
    | none => rfl
    | some i =>
        simp only [Option.map_some']
        exact congrArg some (hfill (fun v =>
          { v with Q := some (Query.NewTermQuery v.Field (Lit.int i)) }))
  have hTerm : ∀ term : String, (st.Term term).abs = Term term st.abs := by
    intro term
    exact hfill (fun v => { ValueStack.defaultField v with
      Q := some (Query.NewTermQuery (ValueStack.defaultField v).Field (Lit.str term)) })
  have hDate : ∀ value : String,
      (st.Date value).map PtrStack.abs = Date value st.abs := by
    intro value
    unfold PtrStack.Date Date
    split_ifs
    · exact congrArg some (hTerm value)
    · rfl
  have hRange : ∀ value : String,
      (st.Range value).map PtrStack.abs = Range value st.abs := by
    intro value
    unfold PtrStack.Range Range
    cases rangeValue value with
    | none => rfl
    | some v =>
        simp only
        rw [← hread]
        cases hop : (st.current.2.read st.current.1).RangeOp with
        | NoOp => rfl
        | LessThan =>
            simp only [Option.map_some']
            have h := hfill (fun w =>
              { w with Q := some (Query.range ((NewRangeQuery w.Field).Lt v)) })
            rw [← hread, hop] at h
            exact congrArg some h
        | LessThanEqual =>
            simp only [Option.map_some']
            have h := hfill (fun w =>
              { w with Q := some (Query.range ((NewRangeQuery w.Field).Lte v)) })
            rw [← hread, hop] at h
            exact congrArg some h
        | GreaterThan =>
            simp only [Option.map_some']
            have h := hfill (fun w =>
              { w with Q := some (Query.range ((NewRangeQuery w.Field).Gt v)) })
            rw [← hread, hop] at h
            exact congrArg some h
        | GreaterThanEqual =>
            simp only [Option.map_some']
            have h := hfill (fun w =>
              { w with Q := some (Query.range ((NewRangeQuery w.Field).Gte v)) })
            rw [← hread, hop] at h
            exact congrArg some h
  cases op with
  | StartGroup => exact absurd hb (by decide)
  | PopGroup => exact absurd hb (by decide)
  | SetNegation => exact congrArg some (SetNegation_abs st hwf)
  | SetField field =>
      exact congrArg some (hfill (fun v => { v with Field := field }))
  | SetRangeOp rop =>
      simp only [Op.runPtr, Op.run, PtrStack.SetRangeOp, SetRangeOp]
      split_ifs
      · exact congrArg some (hfill (fun v => { v with RangeOp := RangeOp.GreaterThanEqual }))
      · exact congrArg some (hfill (fun v => { v with RangeOp := RangeOp.LessThanEqual }))
      · exact congrArg some (hfill (fun v => { v with RangeOp := RangeOp.GreaterThan }))
      · exact congrArg some (hfill (fun v => { v with RangeOp := RangeOp.LessThan }))
      · rfl
  | Boolean value =>
      simp only [Op.runPtr, Op.run, PtrStack.Boolean, Boolean]
      cases ParseBool value with
      | none => rfl
      | some b =>
          exact congrArg some (hfill (fun v =>
            { v with Q := some (Query.NewTermQuery v.Field (Lit.bool b)) }))
  | Exists =>
      exact congrArg some (hfill (fun v =>
        { v with Q := some (Query.NewExistsQuery v.Field) }))
  | Date value => exact hDate value
  | Number value => exact hNumber value
  | Term term => exact congrArg some (hTerm term)
  | Match text =>
      exact congrArg some (hfill (fun v => { ValueStack.defaultField v with
        Q := some (Query.NewMatchQuery (ValueStack.defaultField v).Field text) }))
  | Phrase phrase =>
      exact congrArg some (hfill (fun v => { ValueStack.defaultField v with
        Q := some (Query.NewMatchPhraseQuery (ValueStack.defaultField v).Field phrase) }))
  | Range value => exact hRange value
  | RangeOrNumber value =>
      simp only [Op.runPtr, Op.run, PtrStack.RangeOrNumber, RangeOrNumber]
      rw [noRangeInProgress_abs st hwf]
      split_ifs
      · exact hNumber value
      · exact hRange value
  | RangeOrDate value =>
      simp only [Op.runPtr, Op.run, PtrStack.RangeOrDate, RangeOrDate]
      rw [noRangeInProgress_abs st hwf]
      split_ifs
      · exact hDate value
      · exact hRange value

/-! ## Frame of the builder operations on the stack of pointers -/

/-- With the pointer of an unfinished top standing a second time on the stack,
`SetField` with another field text changes an element below the top. -/
theorem SetField_shared_breaks_frame (st : PtrStack) (hwf : st.WF)
    (hsh : st.topShared = true) (f : String)
    (hf : ∀ p, st.stack.getLast? = some p → f ≠ (st.read p).Field) :
    ¬ Frame st.abs (st.SetField f).abs := by
  rcases List.eq_nil_or_concat st.stack with h | ⟨s, p, h⟩
  · simp [PtrStack.topShared, h] at hsh
  · simp only [List.concat_eq_append] at h
    have hlast : st.stack.getLast? = some p := by rw [h]; simp
    have hsh2 : p ≠ GroupInitAddr ∧ (st.read p).Q = none ∧ p ∈ s := by
      unfold PtrStack.topShared at hsh
      rw [hlast] at hsh
      simpa [h, and_assoc] using hsh
    obtain ⟨hp, hq, hmem⟩ := hsh2
    have hplt : p < st.heap.length := hwf.2 p (by rw [h]; simp)
    have hc := ptr_current_reuse st s p h hp hq
    have hset : st.SetField f =
        (({ st with stack := s } : PtrStack).write p { st.read p with Field := f }).Push p := by
      unfold PtrStack.SetField
      simp only [hc]
      rfl
    intro hframe
    have htake := hframe.2.1
    rw [hset] at htake
    simp only [PtrStack.abs, PtrStack.Push, PtrStack.write, h, List.map_append, List.map_cons,
      List.map_nil, List.length_append, List.length_map, List.length_singleton,
      Nat.add_sub_cancel] at htake
    rw [List.take_append_of_le_length (by simp), List.take_append_of_le_length (by simp)] at htake
    simp only [List.take_of_length_le (Nat.le_of_eq (List.length_map _ _))] at htake
    have hp2 := (List.map_inj_left.mp htake) p hmem
    simp only [PtrStack.view, hp, if_false, PtrStack.read, List.getD_eq_getElem?_getD,
      List.getElem?_set, hplt, if_true, ValueRef.cell.injEq] at hp2
    have hfield := congrArg Value.Field hp2
    simp only [Option.getD_some] at hfield
    apply hf p hlast
    simpa [PtrStack.read, List.getD_eq_getElem?_getD] using hfield

/-! ## The stacks the operations themselves build hold no pointer twice -/

theorem nodesDistinct_Push (st : PtrStack) (p : Addr) (hd : st.nodesDistinct)
    (hp : p = GroupInitAddr ∨ p ∉ st.stack) : (st.Push p).nodesDistinct := by
  unfold PtrStack.nodesDistinct at hd ⊢
  simp only [PtrStack.Push, List.filter_append]
  by_cases h0 : p = GroupInitAddr
  · simpa [h0] using hd
  · have hnot : p ∉ st.stack := hp.resolve_left h0
    have hf : List.filter (fun q => decide (q ≠ GroupInitAddr)) [p] = [p] := by
      simp [List.filter, h0]
    rw [hf]
    rw [List.nodup_append]
    refine ⟨hd, List.nodup_singleton p, ?_⟩
    intro a ha hb
    rw [List.mem_singleton] at hb
    subst hb
    exact hnot (List.mem_filter.mp ha).1

theorem nodesDistinct_bottom (st : PtrStack) (s t : List Addr) (hs : st.stack = s ++ t)
    (hd : st.nodesDistinct) :
    ({ st with stack := s } : PtrStack).nodesDistinct := by
  unfold PtrStack.nodesDistinct at hd ⊢
  rw [hs, List.filter_append] at hd
  exact (List.nodup_append.mp hd).1

theorem nodesDistinct_top_not_below (st : PtrStack) (s : List Addr) (p : Addr)
    (hs : st.stack = s ++ [p]) (hp : p ≠ GroupInitAddr) (hd : st.nodesDistinct) : p ∉ s := by
  unfold PtrStack.nodesDistinct at hd
  rw [hs, List.filter_append] at hd
  have hf : List.filter (fun q => decide (q ≠ GroupInitAddr)) [p] = [p] := by
    simp [List.filter, hp]
  rw [hf, List.nodup_append] at hd
  intro hin
  exact hd.2.2 (List.mem_filter.mpr ⟨hin, by simpa using hp⟩) (List.mem_singleton.mpr rfl)

/-- On a stack without a pointer twice the top is not shared. -/
theorem topShared_of_nodesDistinct (st : PtrStack) (hd : st.nodesDistinct) :
    st.topShared = false := by
  rcases List.eq_nil_or_concat st.stack with h | ⟨s, p, h⟩
  · simp [PtrStack.topShared, h]
  · simp only [List.concat_eq_append] at h
    have hlast : st.stack.getLast? = some p := by rw [h]; simp
    unfold PtrStack.topShared
    rw [hlast]
    by_cases hp : p = GroupInitAddr
    · simp [hp]
    · have hnot := nodesDistinct_top_not_below st s p h hp hd
      simp [h, hnot]

theorem ptr_current_cases (st : PtrStack) :
    st.current = st.alloc (NewValue false) ∨
      ∃ s p, st.stack = s ++ [p] ∧ p ≠ GroupInitAddr ∧ (st.read p).Q = none ∧
        st.current = (p, { st with stack := s }) := by
  rcases List.eq_nil_or_concat st.stack with h | ⟨s, p, h⟩
  · exact Or.inl (ptr_current_fresh st (Or.inl (by rw [h]; rfl)))
  · simp only [List.concat_eq_append] at h
    have hlast : st.stack.getLast? = some p := by rw [h]; simp
    by_cases hp : p = GroupInitAddr
    · exact Or.inl (ptr_current_fresh st (Or.inr ⟨p, hlast, Or.inl hp⟩))
    · by_cases hq : (st.read p).Q = none
      · exact Or.inr ⟨s, p, h, hp, hq, ptr_current_reuse st s p h hp hq⟩
      · exact Or.inl (ptr_current_fresh st (Or.inr ⟨p, hlast, Or.inr hq⟩))

theorem WF_alloc (st : PtrStack) (v : Value) (hwf : st.WF) : (st.alloc v).2.WF := by
  have hlen : 0 < st.heap.length := (List.getElem?_eq_some_iff.mp hwf.1).1
  refine ⟨?_, ?_⟩
  · simp only [PtrStack.alloc]
    rw [List.getElem?_append_left hlen]
    exact hwf.1
  · intro p hp
    have := hwf.2 p hp
    simp only [PtrStack.alloc, List.length_append, List.length_singleton]
    exact Nat.lt_succ_of_lt this

theorem WF_write (st : PtrStack) (p : Addr) (v : Value) (hwf : st.WF)
    (hp : p ≠ GroupInitAddr) : (st.write p v).WF := by
  refine ⟨?_, ?_⟩
  · simp only [PtrStack.write]
    rw [List.getElem?_set]
    have hp0 : ¬ p = 0 := hp
    rw [if_neg hp0]
    exact hwf.1
  · intro a ha
    simp only [PtrStack.write, List.length_set]
    exact hwf.2 a ha

theorem WF_Push (st : PtrStack) (p : Addr) (hwf : st.WF) (hp : p < st.heap.length) :
    (st.Push p).WF := by
  refine ⟨hwf.1, ?_⟩
  intro a ha
  simp only [PtrStack.Push, List.mem_append, List.mem_singleton] at ha
  rcases ha with ha | ha
  · exact hwf.2 a ha
  · rw [ha]; exact hp

theorem WF_bottom (st : PtrStack) (s t : List Addr) (hs : st.stack = s ++ t) (hwf : st.WF) :
    ({ st with stack := s } : PtrStack).WF :=
  ⟨hwf.1, fun a ha => hwf.2 a (by rw [hs]; exact List.mem_append_left t ha)⟩

/-- Writing the cell `current` handed out and pushing its pointer back keeps
the stack well formed and free of double pointers. -/
theorem fill_keeps_distinct (st : PtrStack) (v : Value) (hwf : st.WF)
    (hd : st.nodesDistinct) :
    ((st.current.2.write st.current.1 v).Push st.current.1).WF ∧
      ((st.current.2.write st.current.1 v).Push st.current.1).nodesDistinct := by
  have hlen : 0 < st.heap.length := (List.getElem?_eq_some_iff.mp hwf.1).1
  rcases ptr_current_cases st with hc | ⟨s, p, hs, hp, _, hc⟩
  · rw [hc]
    have hne : st.heap.length ≠ GroupInitAddr := Nat.ne_of_gt hlen
    have hwf1 := WF_write _ st.heap.length v (WF_alloc st (NewValue false) hwf) hne
    refine ⟨WF_Push _ _ hwf1 ?_, ?_⟩
    · simp [PtrStack.write, PtrStack.alloc]
    · apply nodesDistinct_Push
      · exact hd
      · right
        intro hin
        exact Nat.lt_irrefl _ (hwf.2 _ hin)
  · rw [hc]
    have hplt : p < st.heap.length := hwf.2 p (by rw [hs]; simp)
    have hwf1 := WF_write _ p v (WF_bottom st s [p] hs hwf) hp
    refine ⟨WF_Push _ _ hwf1 ?_, ?_⟩
    · simpa [PtrStack.write] using hplt
    · apply nodesDistinct_Push
      · exact nodesDistinct_bottom st s [p] hs hd
      · right
        exact nodesDistinct_top_not_below st s p hs hp hd

theorem SetNegation_keeps_distinct (st : PtrStack) (hwf : st.WF) (hd : st.nodesDistinct) :
    st.SetNegation.WF ∧ st.SetNegation.nodesDistinct := by
  unfold PtrStack.SetNegation
  refine ⟨WF_Push _ _ (WF_alloc st _ hwf) ?_, ?_⟩
  · simp [PtrStack.alloc]
  · apply nodesDistinct_Push
    · exact hd
    · right
      intro hin
      exact Nat.lt_irrefl _ (hwf.2 _ hin)

/-- A successful builder call on pointers is `SetNegation`, or writes the cell
`current` handed out and pushes its pointer back. -/
theorem builder_shape_ptr (op : Op) (st st1 : PtrStack) (hb : op.isBuilder = true)
    (hrun : op.runPtr st = some st1) :
    st1 = st.SetNegation ∨
      ∃ v, st1 = (st.current.2.write st.current.1 v).Push st.current.1 := by
  have hNumber : ∀ value : String, st.Number value = some st1 →
      ∃ v, st1 = (st.current.2.write st.current.1 v).Push st.current.1 := by
    intro value h
    unfold PtrStack.Number at h
    cases hp : Atoi value with
    | none => rw [hp] at h; exact absurd h (by simp)
    | some i => rw [hp] at h; exact ⟨_, (Option.some.inj h).symm⟩
  have hDate : ∀ value : String, st.Date value = some st1 →
      ∃ v, st1 = (st.current.2.write st.current.1 v).Push st.current.1 := by
    intro value h
    unfold PtrStack.Date at h
    split_ifs at h
    exact ⟨_, (Option.some.inj h).symm⟩
  have hRange : ∀ value : String, st.Range value = some st1 →
      ∃ v, st1 = (st.current.2.write st.current.1 v).Push st.current.1 := by
    intro value h
    unfold PtrStack.Range at h
    cases hv : rangeValue value with
    | none => rw [hv] at h; exact absurd h (by simp)
    | some v =>
        rw [hv] at h
        simp only at h
        split at h
        · exact ⟨_, (Option.some.inj h).symm⟩
        · exact ⟨_, (Option.some.inj h).symm⟩
        · exact ⟨_, (Option.some.inj h).symm⟩
        · exact ⟨_, (Option.some.inj h).symm⟩
        · exact absurd h (by simp)
  cases op with
  | StartGroup => exact absurd hb (by decide)
  | PopGroup => exact absurd hb (by decide)
  | SetNegation => exact Or.inl (Option.some.inj hrun).symm
  | SetField field => exact Or.inr ⟨_, (Option.some.inj hrun).symm⟩
  | SetRangeOp rop =>
      right
      simp only [Op.runPtr, PtrStack.SetRangeOp] at hrun
      split_ifs at hrun <;> exact ⟨_, (Option.some.inj hrun).symm⟩
  | Boolean value =>
      right
      simp only [Op.runPtr, PtrStack.Boolean] at hrun
      cases hp : ParseBool value with
      | none => rw [hp] at hrun; exact absurd hrun (by simp)
      | some b => rw [hp] at hrun; exact ⟨_, (Option.some.inj hrun).symm⟩
  | Exists => exact Or.inr ⟨_, (Option.some.inj hrun).symm⟩
  | Date value => exact Or.inr (hDate value hrun)
  | Number value => exact Or.inr (hNumber value hrun)
  | Term term => exact Or.inr ⟨_, (Option.some.inj hrun).symm⟩
  | Match text => exact Or.inr ⟨_, (Option.some.inj hrun).symm⟩
  | Phrase phrase => exact Or.inr ⟨_, (Option.some.inj hrun).symm⟩
  | Range value => exact Or.inr (hRange value hrun)
  | RangeOrNumber value =>
      right
      simp only [Op.runPtr, PtrStack.RangeOrNumber] at hrun
      split_ifs at hrun
      · exact hNumber value hrun
      · exact hRange value hrun
  | RangeOrDate value =>
      right
      simp only [Op.runPtr, PtrStack.RangeOrDate] at hrun
      split_ifs at hrun
      · exact hDate value hrun
      · exact hRange value hrun

theorem ptr_view_heap (st st1 : PtrStack) (h : st1.heap = st.heap) : st1.view = st.view := by
  funext a
  simp [PtrStack.view, PtrStack.read, h]

theorem ptr_Pop_facts (st : PtrStack) :
    st.Pop.2.heap = st.heap ∧ st.Pop.2.stack <+: st.stack ∧
      st.Pop.2.abs = (Pop st.abs).2 ∧ st.Pop.1.map st.view = (Pop st.abs).1 := by
  unfold PtrStack.Pop Pop
  have hE : ValueStack.Empty st.abs = st.Empty := by
    simp [ValueStack.Empty, PtrStack.Empty, PtrStack.abs]
  rw [hE]
  cases h : st.Empty with
  | true => exact ⟨rfl, List.prefix_refl _, rfl, rfl⟩
  | false =>
      refine ⟨rfl, List.dropLast_prefix _, ?_, ?_⟩
      · have hv := ptr_view_heap st { st with stack := st.stack.dropLast } rfl
        simp only [PtrStack.abs, Bool.false_eq_true, if_false, hv, List.map_dropLast]
      · simp [PtrStack.abs, List.getLast?_map]

/-- The loop of `PopGroup` on pointers does what the loop on values does, leaves
the store alone and leaves a bottom part of the stack. -/
theorem ptr_loop_facts :
    ∀ (fuel : Nat) (out : List Addr) (next : Option Addr) (st : PtrStack), st.WF →
      (PtrStack.PopGroup.loop fuel out next st).2.heap = st.heap ∧
      (PtrStack.PopGroup.loop fuel out next st).2.stack <+: st.stack ∧
      (PtrStack.PopGroup.loop fuel out next st).2.abs =
        (PopGroup.loop fuel (out.map st.view) (next.map st.view) st.abs).2 ∧
      (PtrStack.PopGroup.loop fuel out next st).1.map st.view =
        (PopGroup.loop fuel (out.map st.view) (next.map st.view) st.abs).1 := by
  intro fuel
  induction fuel with
  | zero => intro out next st _; exact ⟨rfl, List.prefix_refl _, rfl, rfl⟩
  | succ k ih =>
      intro out next st hwf
      cases next with
      | none => exact ⟨rfl, List.prefix_refl _, rfl, rfl⟩
      | some p =>
          have hE : ValueStack.Empty st.abs = st.Empty := by
            simp [ValueStack.Empty, PtrStack.Empty, PtrStack.abs]
          simp only [PtrStack.PopGroup.loop, PopGroup.loop, Option.map_some',
            ptr_view_deref st hwf p, hE]
          by_cases hf : (st.read p).Field ≠ GroupInitField
          · rw [if_pos hf, if_pos hf]
            cases hem : st.Empty with
            | true =>
                simp only [if_true]
                refine ⟨?_, ?_, ?_, ?_⟩ <;>
                  first
                  | trivial
                  | rfl
                  | exact List.prefix_refl _
                  | simp
            | false =>
                simp only [Bool.false_eq_true, if_false]
                obtain ⟨hp1, hp2, hp3, hp4⟩ := ptr_Pop_facts st
                have hwf2 : st.Pop.2.WF := by
                  refine ⟨by rw [hp1]; exact hwf.1, ?_⟩
                  intro a ha
                  rw [hp1]
                  exact hwf.2 a (hp2.subset ha)
                have hview : st.Pop.2.view = st.view := by
                  funext a
                  simp [PtrStack.view, PtrStack.read, hp1]
                obtain ⟨i1, i2, i3, i4⟩ := ih (out ++ [p]) st.Pop.1 st.Pop.2 hwf2
                rw [hview, hp3, hp4] at i3 i4
                refine ⟨i1.trans hp1, i2.trans hp2, ?_, ?_⟩
                · rw [i3]; simp
                · rw [i4]; simp
          · rw [if_neg hf, if_neg hf]
            exact ⟨rfl, List.prefix_refl _, rfl, rfl⟩

theorem ptr_PopGroup_facts (st : PtrStack) (hwf : st.WF) :
    st.PopGroup.2.heap = st.heap ∧ st.PopGroup.2.stack <+: st.stack ∧
      st.PopGroup.2.abs = (PopGroup st.abs).2 ∧
      st.PopGroup.1.map st.view = (PopGroup st.abs).1 := by
  obtain ⟨hp1, hp2, hp3, hp4⟩ := ptr_Pop_facts st
  have hwf2 : st.Pop.2.WF := by
    refine ⟨by rw [hp1]; exact hwf.1, ?_⟩
    intro a ha
    rw [hp1]
    exact hwf.2 a (hp2.subset ha)
  have hview : st.Pop.2.view = st.view := by
    funext a
    simp [PtrStack.view, PtrStack.read, hp1]
  have hlen : st.Pop.2.stack.length + 1 ≤ st.stack.length + 1 :=
    Nat.succ_le_succ hp2.length_le
  obtain ⟨i1, i2, i3, i4⟩ := ptr_loop_facts (st.stack.length + 1) [] st.Pop.1 st.Pop.2 hwf2
  rw [hview, hp3, hp4] at i3 i4
  have hlenabs : st.abs.stack.length = st.stack.length := by simp [PtrStack.abs]
  unfold PtrStack.PopGroup PopGroup
  rw [hlenabs]
  exact ⟨i1.trans hp1, i2.trans hp2, by simpa using i3, by simpa using i4⟩

/-- One public operation keeps the stack well formed and free of double
pointers. -/
theorem step_keeps_distinct (op : Op) (st st1 : PtrStack) (hwf : st.WF)
    (hd : st.nodesDistinct) (hrun : op.runPtr st = some st1) :
    st1.WF ∧ st1.nodesDistinct := by
  by_cases hb : op.isBuilder = true
  · rcases builder_shape_ptr op st st1 hb hrun with h | ⟨v, h⟩
    · rw [h]; exact SetNegation_keeps_distinct st hwf hd
    · rw [h]; exact fill_keeps_distinct st v hwf hd
  · have hlen : 0 < st.heap.length := (List.getElem?_eq_some_iff.mp hwf.1).1
    cases op with
    | StartGroup =>
        simp only [Op.runPtr, Option.some.injEq] at hrun
        subst hrun
        exact ⟨WF_Push st _ hwf hlen, nodesDistinct_Push st _ hd (Or.inl rfl)⟩
    | PopGroup =>
        simp only [Op.runPtr, Option.some.injEq] at hrun
        subst hrun
        obtain ⟨h1, h2, _, _⟩ := ptr_PopGroup_facts st hwf
        obtain ⟨t, ht⟩ := h2
        refine ⟨⟨by rw [h1]; exact hwf.1, ?_⟩, ?_⟩
        · intro a ha
          rw [h1]
          exact hwf.2 a (by rw [← ht]; exact List.mem_append_left t ha)
        · have hd2 := nodesDistinct_bottom st st.PopGroup.2.stack t ht.symm hd
          exact hd2
    | _ => exact absurd rfl hb

/-- One public operation on a stack of pointers without double pointers gives
the stack that the same operation gives on the stack of values. -/
theorem step_simulates (op : Op) (st : PtrStack) (hwf : st.WF) (hd : st.nodesDistinct) :
    (op.runPtr st).map PtrStack.abs = op.run st.abs := by
  by_cases hb : op.isBuilder = true
  · exact builder_refines op st hb hwf (topShared_of_nodesDistinct st hd)
  · cases op with
    | StartGroup =>
        have hv := ptr_view_heap st (st.Push GroupInitAddr) rfl
        simp only [Op.runPtr, Op.run, Option.map_some', PtrStack.StartGroup, StartGroup,
          PtrStack.abs, hv]
        simp [PtrStack.Push, Push, PtrStack.view, GroupInit]
    | PopGroup =>
        simp only [Op.runPtr, Op.run, Option.map_some']
        exact congrArg some (ptr_PopGroup_facts st hwf).2.2.1
    | _ => exact absurd rfl hb

/-- Every run of public operations (no direct `Push`) on a stack of pointers
without double pointers is the same run on the stack of values, and ends in a
stack without double pointers. -/
theorem runOps_simulation (ops : List Op) :
    ∀ st : PtrStack, st.WF → st.nodesDistinct →
      (runOpsPtr ops st).map PtrStack.abs = runOps ops st.abs ∧
      (∀ st1, runOpsPtr ops st = some st1 → st1.WF ∧ st1.nodesDistinct) := by
  induction ops with
  | nil =>
      intro st hwf hd
      refine ⟨rfl, ?_⟩
      intro st1 h
      simp only [runOpsPtr, Option.some.injEq] at h
      rw [← h]; exact ⟨hwf, hd⟩
  | cons op ops ih =>
      intro st hwf hd
      have hs := step_simulates op st hwf hd
      simp only [runOpsPtr, runOps]
      cases hop : op.runPtr st with
      | none =>
          rw [hop] at hs
          simp only [Option.map_none'] at hs
          rw [← hs]
          exact ⟨rfl, fun st1 h => absurd h (by simp)⟩
      | some st2 =>
          rw [hop] at hs
          simp only [Option.map_some'] at hs
          rw [← hs]
          obtain ⟨hwf2, hd2⟩ := step_keeps_distinct op st st2 hwf hd hop
          exact ih st2 hwf2 hd2

/-- From the start of the package, every run of public operations without a
direct `Push` is the same run on the stack of values from `Init()`, and the
stack it reaches holds no pointer to a node twice, so that its top is never
shared. -/
theorem runOps_from_start (ops : List Op) :
    (runOpsPtr ops PtrStack.start).map PtrStack.abs = runOps ops Init ∧
    (∀ st1, runOpsPtr ops PtrStack.start = some st1 →
      st1.WF ∧ st1.nodesDistinct ∧ st1.topShared = false) := by
  have hwf : PtrStack.start.WF := by decide
  have hd : PtrStack.start.nodesDistinct := by
    simp [PtrStack.nodesDistinct, PtrStack.start]
  obtain ⟨h1, h2⟩ := runOps_simulation ops PtrStack.start hwf hd
  refine ⟨h1, ?_⟩
  intro st1 h
  obtain ⟨a, b⟩ := h2 st1 h
  exact ⟨a, b, topShared_of_nodesDistinct st1 b⟩

/-! ## Frame of the builder operations: the claim -/

theorem fill_keeps_WF (st : PtrStack) (v : Value) (hwf : st.WF) :
    ((st.current.2.write st.current.1 v).Push st.current.1).WF := by
  have hlen : 0 < st.heap.length := (List.getElem?_eq_some_iff.mp hwf.1).1
  rcases ptr_current_cases st with hc | ⟨s, p, hs, hp, _, hc⟩
  · rw [hc]
    have hne : st.heap.length ≠ GroupInitAddr := Nat.ne_of_gt hlen
    have hwf1 := WF_write _ st.heap.length v (WF_alloc st (NewValue false) hwf) hne
    refine WF_Push _ _ hwf1 ?_
    simp [PtrStack.write, PtrStack.alloc]
  · rw [hc]
    have hplt : p < st.heap.length := hwf.2 p (by rw [hs]; simp)
    have hwf1 := WF_write _ p v (WF_bottom st s [p] hs hwf) hp
    refine WF_Push _ _ hwf1 ?_
    simpa [PtrStack.write] using hplt

/-- A successful builder call leaves a well-formed state, shared pointers or
not: the cell of `GroupInit` is never written and every pointer on the stack
points to a cell. -/
theorem builder_keeps_WF (op : Op) (st st1 : PtrStack) (hb : op.isBuilder = true)
    (hwf : st.WF) (hrun : op.runPtr st = some st1) : st1.WF := by
  rcases builder_shape_ptr op st st1 hb hrun with h | ⟨v, h⟩
  · rw [h]
    unfold PtrStack.SetNegation
    refine WF_Push _ _ (WF_alloc st _ hwf) ?_
    simp [PtrStack.alloc]
  · rw [h]; exact fill_keeps_WF st v hwf

/-- C20 as stated fails on the stack of pointers: with one unfinished node
pushed twice (`Push(v); Push(v)`, the stack `[v, v]`), `SetField "x"` writes
through the popped pointer and so changes the element below the top as well.
So it is not the case that for every stack and every successful builder call
the elements below the top are unchanged. -/
theorem C20_shared_pointer_counterexample :
    ¬ (∀ (op : Op) (st st1 : PtrStack), op.isBuilder = true → st.WF →
        op.runPtr st = some st1 → Frame st.abs st1.abs) := by
  intro h
  have h2 := h (Op.SetField "x") { heap := [GroupInitValue, NewValue false], stack := [1, 1] }
    { heap := [GroupInitValue, Value.mk none "x" RangeOp.NoOp false], stack := [1, 1] }
    rfl (by decide) (by decide)
  have h3 := h2.2.1
  revert h3
  decide

/-- C20, amended: frame of every builder operation.  For every stack of
pointers in which the pointer of an unfinished top node does not stand a
second time below the top, and every successful call of `SetNegation`,
`SetField`, `SetRangeOp`, `Boolean`, `Exists`, `Date`, `Number`, `Term`,
`Match`, `Phrase`, `Range`, `RangeOrNumber` or `RangeOrDate`, the resulting
stack is the old stack with one new node appended, or the old stack with only
its top replaced; all elements below the top are unchanged and in the same
order, the length does not decrease and grows by at most one, and a sentinel
stays where it was; the cell of the sentinel is not written (the state after
the call is well formed: the cell of `GroupInit` is as the package made it).
The condition cannot be dropped: when the pointer of the
unfinished top does stand below the top, `SetField` with another field text
changes an element below the top. -/
theorem C20_builder_frame_unshared (op : Op) (st st1 : PtrStack) (hb : op.isBuilder = true)
    (hwf : st.WF) (hns : st.topShared = false) (hrun : op.runPtr st = some st1) :
    Frame st.abs st1.abs ∧
    st1.WF ∧
    (∀ (st0 : PtrStack) (f : String), st0.WF → st0.topShared = true →
      (∀ p, st0.stack.getLast? = some p → f ≠ (st0.read p).Field) →
        ¬ Frame st0.abs (st0.SetField f).abs) := by
  refine ⟨?_, builder_keeps_WF op st st1 hb hwf hrun, ?_⟩
  · have href := builder_refines op st hb hwf hns
    rw [hrun] at href
    have hval : op.run st.abs = some st1.abs := href.symm
    obtain ⟨h1, h2, h3, h4, h5⟩ := builder_frame_values op st.abs st1.abs hb hval
    refine ⟨?_, h2, h3, h4, h5⟩
    rcases h1 with h1 | ⟨s, old, new, hs, _, hn⟩
    · exact Or.inl h1
    · exact Or.inr ⟨s, old, new, hs, hn⟩
  · intro st0 f hwf0 hsh hf
    exact SetField_shared_breaks_frame st0 hwf0 hsh f hf

/-- C20, amended, at concrete calls: `Term "x"` on an unfinished node above a
sentinel, and `SetField "x"` on the stack that holds one unfinished node
twice. -/
theorem C20_builder_frame_unshared_witness :
    Frame
      (PtrStack.abs { heap := [GroupInitValue, Value.mk none "a" RangeOp.NoOp false],
                      stack := [0, 1] })
      (PtrStack.abs
        { heap := [GroupInitValue,
            Value.mk (some (Query.NewTermQuery "a" (Lit.str "x"))) "a" RangeOp.NoOp false],
          stack := [0, 1] }) ∧
    ¬ Frame
      (PtrStack.abs { heap := [GroupInitValue, NewValue false], stack := [1, 1] })
      (PtrStack.abs (PtrStack.SetField "x"
        { heap := [GroupInitValue, NewValue false], stack := [1, 1] })) :=
  ⟨(C20_builder_frame_unshared (Op.Term "x")
      { heap := [GroupInitValue, Value.mk none "a" RangeOp.NoOp false], stack := [0, 1] }
      { heap := [GroupInitValue,
          Value.mk (some (Query.NewTermQuery "a" (Lit.str "x"))) "a" RangeOp.NoOp false],
        stack := [0, 1] }
      rfl (by decide) (by decide) (by decide)).1,
   (C20_builder_frame_unshared (Op.Term "x")
      { heap := [GroupInitValue, Value.mk none "a" RangeOp.NoOp false], stack := [0, 1] }
      { heap := [GroupInitValue,
          Value.mk (some (Query.NewTermQuery "a" (Lit.str "x"))) "a" RangeOp.NoOp false],
        stack := [0, 1] }
      rfl (by decide) (by decide) (by decide)).2.2
      { heap := [GroupInitValue, NewValue false], stack := [1, 1] } "x"
      (by decide) (by decide)
      (by intro p hp; simp at hp; subst hp; decide)⟩

end ValueStackModel
